import Mathlib

/-!
Verification of the parser-combinator engine in src/monadics/parser-combinator.ts.

The TypeScript code mutates a single `ParsingState` cursor in place; here every
operation is a pure function threading the cursor explicitly.  JavaScript string
semantics that matter to the engine are modelled explicitly:
  - `string[i]` out of range yields `undefined`, modelled as `Option Char`;
  - `s += undefined` appends the text "undefined" (see `jsConcat`);
  - `parseInt` is modelled by `jsParseInt` (decimal only: no call site in the
    engine can produce a 0x-prefixed argument);
  - `String(n)` / array-join coercion of a number is `jsNumToString`, where
    `none` stands for JavaScript's NaN.
The `while (true)` loops of `many`, `sepBy` and `skipUntilRecovery` can diverge
in the source, so they are embedded as fuel-indexed evaluators returning
`Option`; `none` means the loop has not exited within `fuel` iterations, and
divergence of the source loop is `∀ fuel, ... = none`.
-/

namespace Monadics

/-- Error taxonomy of the engine (ParserErrorCode in the source). -/
inductive ParserErrorCode where
  | EXPECTED_LITERAL
  | EXPECTED_REGEX
  | UNEXPECTED_EOF
  | ALL_PARSERS_FAILED
deriving DecidableEq

/-- Span of a match (interface Meta).  The source field `end` is a Lean
keyword and is called `stop` here. -/
structure Meta where
  start : Nat
  stop : Nat
  startLine : Nat
  endLine : Nat
  startColumn : Nat
  endColumn : Nat
deriving DecidableEq

/-- Result<T> = Success<T> | Failure. -/
inductive Result (α : Type) where
  | success (meta : Meta) (data : α)
  | failure (code : ParserErrorCode) (error_message : String) (meta : Meta)
deriving DecidableEq

def Result.isFailure : Result α → Bool
  | .failure _ _ _ => true
  | .success _ _ => false

def Result.isSuccess : Result α → Bool
  | .success _ _ => true
  | .failure _ _ _ => false

def Result.dataOf : Result α → Option α
  | .success _ d => some d
  | .failure _ _ _ => none

def Result.errCode : Result α → Option ParserErrorCode
  | .failure c _ _ => some c
  | .success _ _ => none

def Result.metaOf : Result α → Meta
  | .success m _ => m
  | .failure _ _ m => m

/-- The snapshot type (`type State` in the source): position, line, column. -/
structure State where
  currentPosition : Nat
  currentLine : Nat
  currentColumn : Nat
deriving DecidableEq

/-- The mutable cursor (class ParsingState).  `raw` is the input;
JavaScript string positions are modelled by `List Char` indices. -/
@[ext] structure ParsingState where
  raw : List Char
  currentPosition : Nat
  currentLine : Nat
  currentColumn : Nat
deriving DecidableEq

def ParsingState.ofString (input : String) : ParsingState :=
  ⟨input.data, 0, 1, 1⟩

/-- ParsingState.copy(): snapshot of position/line/column. -/
def ParsingState.copy (s : ParsingState) : State :=
  ⟨s.currentPosition, s.currentLine, s.currentColumn⟩

/-- ParsingState.rollback(state): restore position/line/column (raw is kept). -/
def ParsingState.rollback (s : ParsingState) (st : State) : ParsingState :=
  ⟨s.raw, st.currentPosition, st.currentLine, st.currentColumn⟩

/-- ParsingState.meta(initalState): span from a snapshot to the current state. -/
def ParsingState.meta (s : ParsingState) (init : State) : Meta :=
  ⟨init.currentPosition, s.currentPosition,
   init.currentLine, s.currentLine,
   init.currentColumn, s.currentColumn⟩

/-- ParsingState.nextChar(): read raw[position] (undefined ↦ none) and advance.
The position is incremented even past end of input; a newline bumps the line
and resets the column, any other read (including undefined) bumps the column. -/
def ParsingState.nextChar (s : ParsingState) : Option Char × ParsingState :=
  match s.raw[s.currentPosition]? with
  | some c =>
    if c = '\n' then
      (some c, ⟨s.raw, s.currentPosition + 1, s.currentLine + 1, 1⟩)
    else
      (some c, ⟨s.raw, s.currentPosition + 1, s.currentLine, s.currentColumn + 1⟩)
  | none => (none, ⟨s.raw, s.currentPosition + 1, s.currentLine, s.currentColumn + 1⟩)

/-- JavaScript `sub += c` where `c` is a char-or-undefined: appending
`undefined` to a string appends the text "undefined". -/
def jsConcat (acc : String) (c : Option Char) : String :=
  match c with
  | some ch => acc.push ch
  | none => acc ++ "undefined"

/-- ParsingState.nextChars(n): n repetitions of `sub += nextChar()`. -/
def ParsingState.nextChars : ParsingState → Nat → String × ParsingState
  | s, 0 => ("", s)
  | s, n + 1 =>
    let r := s.nextChar
    let rest := r.2.nextChars n
    (jsConcat "" r.1 ++ rest.1, rest.2)

/-- trx.peekRemainder(): the unconsumed suffix of the input. -/
def ParsingState.peekRemainder (s : ParsingState) : List Char :=
  s.raw.drop s.currentPosition

/-- A parser is the wrapped function `(ctx) => Result` given to `new Parser`. -/
structure Parser (α : Type) where
  run : ParsingState → Result α × ParsingState

/-- The `parse` wrapper installed by the Parser constructor: a cursor whose
position is beyond the input length yields UNEXPECTED_EOF before the wrapped
function runs.  Every combinator invokes children through this wrapper. -/
def Parser.parse (p : Parser α) (ctx : ParsingState) : Result α × ParsingState :=
  if ctx.raw.length < ctx.currentPosition then
    (.failure .UNEXPECTED_EOF "Unexpected EOF" (ctx.meta ctx.copy), ctx)
  else p.run ctx

/-- trx.success(match): build a Success spanning the transaction origin to the
current cursor and commit.  Committing only advances the transaction's private
snapshot, so the cursor itself is unchanged. -/
def trxSuccess (init : State) (cur : ParsingState) (data : α) :
    Result α × ParsingState :=
  (.success (cur.meta init) data, cur)

/-- trx.failure(code, message): build a Failure whose span runs from the origin
to the pre-rollback cursor, then roll the cursor back to the origin. -/
def trxFailure (init : State) (cur : ParsingState) (code : ParserErrorCode)
    (msg : String) : Result α × ParsingState :=
  (.failure code msg (cur.meta init), cur.rollback init)

/-- Parser.map. -/
def Parser.map (p : Parser α) (f : α → β) : Parser β :=
  ⟨fun ctx =>
    match p.parse ctx with
    | (.failure c m mt, s1) => (.failure c m mt, s1)
    | (.success m d, s1) => (.success m (f d), s1)⟩

/-- Parser.optional: an auto-commit transaction; a child failure is replaced by
a zero-progress success carrying null (here `none`). -/
def Parser.optional (p : Parser α) : Parser (Option α) :=
  ⟨fun ctx =>
    let init := ctx.copy
    match p.parse ctx with
    | (.failure _ _ _, s1) => trxSuccess init s1 none
    | (.success m d, s1) => (.success m (some d), s1)⟩

/-- Loop body of Parser.many.  The source loop exits when a run fails or when
`trx.is_dirty()` is false, i.e. when the cursor sits at the position the
transaction was opened at; on exit it returns `trx.success(data)`. -/
def Parser.manyGo (p : Parser α) (init : State) :
    Nat → ParsingState → List α → Option (Result (List α) × ParsingState)
  | 0, _, _ => none
  | fuel + 1, s, acc =>
    match p.parse s with
    | (.failure _ _ _, s1) => some (trxSuccess init s1 acc)
    | (.success _ d, s1) =>
      if s1.currentPosition = init.currentPosition then some (trxSuccess init s1 acc)
      else Parser.manyGo p init fuel s1 (acc ++ [d])

/-- Parser.many with the constructor's parse wrapper applied. -/
def Parser.manyParse (p : Parser α) (fuel : Nat) (ctx : ParsingState) :
    Option (Result (List α) × ParsingState) :=
  if ctx.raw.length < ctx.currentPosition then
    some (.failure .UNEXPECTED_EOF "Unexpected EOF" (ctx.meta ctx.copy), ctx)
  else Parser.manyGo p ctx.copy fuel ctx []

/-- Loop of Parser.sequence: run each parser in order; the first failure is
returned after the auto-rollback disposal restores the origin snapshot; if all
succeed the ordered values are committed. -/
def Parser.seqGo (init : State) :
    List (Parser α) → ParsingState → List α → Result (List α) × ParsingState
  | [], s, acc => trxSuccess init s acc
  | p :: ps, s, acc =>
    match p.parse s with
    | (.failure c m mt, s1) => (.failure c m mt, s1.rollback init)
    | (.success _ d, s1) => Parser.seqGo init ps s1 (acc ++ [d])

/-- Parser.sequence (homogeneous list instance of the variadic source). -/
def Parser.sequence (ps : List (Parser α)) : Parser (List α) :=
  ⟨fun ctx => Parser.seqGo ctx.copy ps ctx []⟩

/-- Parser.sequence at arity two with a heterogeneous value tuple: the same
run-in-order / rollback-on-first-failure / commit-on-success loop. -/
def Parser.seq2 (p : Parser α) (q : Parser β) : Parser (α × β) :=
  ⟨fun ctx =>
    let init := ctx.copy
    match p.parse ctx with
    | (.failure c m mt, s1) => (.failure c m mt, s1.rollback init)
    | (.success _ a, s1) =>
      match q.parse s1 with
      | (.failure c m mt, s2) => (.failure c m mt, s2.rollback init)
      | (.success _ b, s2) => trxSuccess init s2 (a, b)⟩

/-- Parser.sequence at arity three with a heterogeneous value tuple. -/
def Parser.seq3 (p : Parser α) (q : Parser β) (r : Parser γ) :
    Parser (α × β × γ) :=
  ⟨fun ctx =>
    let init := ctx.copy
    match p.parse ctx with
    | (.failure c m mt, s1) => (.failure c m mt, s1.rollback init)
    | (.success _ a, s1) =>
      match q.parse s1 with
      | (.failure c m mt, s2) => (.failure c m mt, s2.rollback init)
      | (.success _ b, s2) =>
        match r.parse s2 with
        | (.failure c m mt, s3) => (.failure c m mt, s3.rollback init)
        | (.success _ c3, s3) => trxSuccess init s3 (a, b, c3)⟩

/-- Loop of Parser.or: try each parser in order inside one auto-commit
transaction, return the first success; when all alternatives fail, fail with
ALL_PARSERS_FAILED (rolling back to the origin). -/
def Parser.orGo (init : State) :
    List (Parser α) → ParsingState → Result α × ParsingState
  | [], s => trxFailure init s .ALL_PARSERS_FAILED "All parsers failed"
  | p :: ps, s =>
    match p.parse s with
    | (.success m d, s1) => (.success m d, s1)
    | (.failure _ _ _, s1) => Parser.orGo init ps s1

/-- Parser.or over a list of alternatives. -/
def Parser.or (ps : List (Parser α)) : Parser α :=
  ⟨fun ctx => Parser.orGo ctx.copy ps ctx⟩

/-- Parser.or at arity two. -/
def Parser.or2 (p q : Parser α) : Parser α :=
  Parser.or [p, q]

/-- Parser.utf8(expected): read one char; undefined with a nonempty expectation
is UNEXPECTED_EOF, any other mismatch is EXPECTED_LITERAL. -/
def Parser.utf8 (expected : String) : Parser String :=
  ⟨fun ctx =>
    let init := ctx.copy
    let r := ctx.nextChar
    match r.1 with
    | none =>
      if expected ≠ "" then
        trxFailure init r.2 .UNEXPECTED_EOF "Unexpected EOF"
      else
        trxFailure init r.2 .EXPECTED_LITERAL ("Expected character: " ++ expected)
    | some c =>
      if String.mk [c] = expected then trxSuccess init r.2 expected
      else trxFailure init r.2 .EXPECTED_LITERAL ("Expected character: " ++ expected)⟩

/-- Parser.regex(pattern): `matcher` is the compiled anchored pattern, applied
to the unconsumed remainder and returning the matched prefix; on a match the
matched length is consumed with nextChars. -/
def Parser.regex (matcher : List Char → Option (List Char)) : Parser String :=
  ⟨fun ctx =>
    let init := ctx.copy
    match matcher ctx.peekRemainder with
    | none => trxFailure init ctx .EXPECTED_REGEX "Expected to match regex"
    | some m =>
      let r := ctx.nextChars m.length
      trxSuccess init r.2 r.1⟩

/-- Parser.literal(expected, config): consume expected.length chars and
compare, optionally case-folded. -/
def Parser.literal (expected : String) (case_insensitive : Bool) : Parser String :=
  ⟨fun ctx =>
    let init := ctx.copy
    let r := ctx.nextChars expected.length
    let prepared_input := if case_insensitive then r.1.toLower else r.1
    let prepared_expected := if case_insensitive then expected.toLower else expected
    if prepared_input = prepared_expected then trxSuccess init r.2 expected
    else trxFailure init r.2 .EXPECTED_LITERAL ("Expected literal: " ++ expected)⟩

/-- Loop of Parser.sepBy after the first item has been parsed: a delimiter
failure breaks the loop and commits the items collected so far; a delimiter
success followed by an item failure returns that failure, with the
auto-rollback disposal restoring the cursor to the transaction origin (the
position just after the first item). -/
def Parser.sepByGo (item : Parser α) (delim : Parser β) (init : State) :
    Nat → ParsingState → List α → Option (Result (List α) × ParsingState)
  | 0, _, _ => none
  | fuel + 1, s, items =>
    match delim.parse s with
    | (.failure _ _ _, s1) => some (trxSuccess init s1 items)
    | (.success _ _, s1) =>
      match item.parse s1 with
      | (.failure c m mt, s2) => some (.failure c m mt, s2.rollback init)
      | (.success _ d, s2) => Parser.sepByGo item delim init fuel s2 (items ++ [d])

/-- Parser.sepBy body: a failing first item yields an empty-list success
carrying the failure's own meta; otherwise the loop runs with its transaction
opened just after the first item. -/
def Parser.sepByRun (item : Parser α) (delim : Parser β) (fuel : Nat)
    (ctx : ParsingState) : Option (Result (List α) × ParsingState) :=
  match item.parse ctx with
  | (.failure _ _ mt, s1) => some (.success mt [], s1)
  | (.success _ d, s1) => Parser.sepByGo item delim s1.copy fuel s1 [d]

/-- Parser.sepBy with the constructor's parse wrapper applied. -/
def Parser.sepByParse (item : Parser α) (delim : Parser β) (fuel : Nat)
    (ctx : ParsingState) : Option (Result (List α) × ParsingState) :=
  if ctx.raw.length < ctx.currentPosition then
    some (.failure .UNEXPECTED_EOF "Unexpected EOF" (ctx.meta ctx.copy), ctx)
  else Parser.sepByRun item delim fuel ctx

/-- Loop of Parser.skipUntilRecovery: while the position is inside the input,
try the recovery parser; on its success retry the base parser from that point
(success there is the overall result, failure there is a null-valued success
spanning back to the original start); on recovery failure advance one char.
Reaching end of input returns the original failure unmodified. -/
def Parser.skipGo (base : Parser α) (rec : Parser β) (initSnap : State)
    (initialFailure : Result (Option α)) :
    Nat → ParsingState → Option (Result (Option α) × ParsingState)
  | 0, _ => none
  | fuel + 1, s =>
    if s.currentPosition < s.raw.length then
      match rec.parse s with
      | (.success _ _, s1) =>
        match base.parse s1 with
        | (.success m d, s2) => some (.success m (some d), s2)
        | (.failure _ _ _, s2) => some (.success (s2.meta initSnap) none, s2)
      | (.failure _ _ _, s1) =>
        Parser.skipGo base rec initSnap initialFailure fuel s1.nextChar.2
    else some (initialFailure, s)

/-- Parser.skipUntilRecovery body: a base success is returned as is; a base
failure starts the recovery loop. -/
def Parser.skipUntilRecovery (base : Parser α) (rec : Parser β) (fuel : Nat)
    (ctx : ParsingState) : Option (Result (Option α) × ParsingState) :=
  let initSnap := ctx.copy
  match base.parse ctx with
  | (.success m d, s1) => some (.success m (some d), s1)
  | (.failure c msg mt, s1) =>
    Parser.skipGo base rec initSnap (.failure c msg mt) fuel s1

/-- Parser.skipUntilRecovery with the constructor's parse wrapper applied. -/
def Parser.skipParse (base : Parser α) (rec : Parser β) (fuel : Nat)
    (ctx : ParsingState) : Option (Result (Option α) × ParsingState) :=
  if ctx.raw.length < ctx.currentPosition then
    some (.failure .UNEXPECTED_EOF "Unexpected EOF" (ctx.meta ctx.copy), ctx)
  else Parser.skipUntilRecovery base rec fuel ctx

/-- One step of parseInt's decimal accumulation. -/
def digitStep (a : Nat) (c : Char) : Nat :=
  a * 10 + (c.toNat - '0'.toNat)

/-- Decimal digit-list value, most significant first (what parseInt computes
on the digit run it finds). -/
def natOfDigits (ds : List Char) : Nat :=
  ds.foldl digitStep 0

/-- Whitespace skipped by parseInt before the number. -/
def jsIsSpace (c : Char) : Bool :=
  c = ' ' || c = '\t' || c = '\n' || c = '\r'

/-- parseInt's optional leading sign: the sign value and the rest. -/
def jsSignSplit : List Char → Int × List Char
  | [] => (1, [])
  | c :: r => if c = '+' then (1, r) else if c = '-' then (-1, r) else (1, c :: r)

/-- JavaScript parseInt (decimal): skip leading whitespace, read one optional
sign, then the longest run of decimal digits; an empty run is NaN (`none`).
The 0x hexadecimal auto-detection is omitted: no call site in the engine can
produce a 0x-prefixed argument. -/
def jsParseInt (s : String) : Option Int :=
  let sr := jsSignSplit (s.data.dropWhile jsIsSpace)
  let digits := sr.2.takeWhile Char.isDigit
  if digits.isEmpty then none
  else some (sr.1 * (natOfDigits digits : Int))

/-- k copies of the text a JavaScript `+= undefined` appends. -/
def undefinedRepeat : Nat → String
  | 0 => ""
  | k + 1 => "undefined" ++ undefinedRepeat k

/-- JavaScript String(n) for a number, where `none` stands for NaN. -/
def jsNumToString : Option Int → String
  | none => "NaN"
  | some i => toString i

/-- Compiled form of the anchored pattern of unsinged_integer, [1-9][0-9]*:
a nonzero digit followed by the longest run of digits. -/
def matchNonzeroDigits : List Char → Option (List Char)
  | [] => none
  | c :: cs => if '1' ≤ c && c ≤ '9' then some (c :: cs.takeWhile Char.isDigit) else none

/-- Compiled form of the anchored digit-run pattern of Parser.digits. -/
def matchDigitRun : List Char → Option (List Char)
  | [] => none
  | c :: cs => if c.isDigit then some (c :: cs.takeWhile Char.isDigit) else none

/-- Parser.digits. -/
def Parser.digits : Parser String :=
  Parser.regex matchDigitRun

/-- Parser.unsinged_integer (the source's own spelling): the nonzero-leading
digit-run regex mapped through parseInt. -/
def Parser.unsinged_integer : Parser (Option Int) :=
  (Parser.regex matchNonzeroDigits).map (fun d => jsParseInt d)

/-- The optional sign of Parser.integer: utf8("+").or(utf8("-")).optional(). -/
def Parser.signOpt : Parser (Option String) :=
  (Parser.or2 (Parser.utf8 "+") (Parser.utf8 "-")).optional

/-- r.filter(isDefined).join("") for integer's [sign, number] pair: a null
sign is dropped, the number (including NaN) is coerced to its string. -/
def joinIntParts (r : Option String × Option Int) : String :=
  (match r.1 with | some sgn => sgn | none => "") ++ jsNumToString r.2

/-- Parser.integer: optional sign then unsigned integer, re-parsed by
parseInt from the joined text. -/
def Parser.integer : Parser (Option Int) :=
  (Parser.seq2 Parser.signOpt Parser.unsinged_integer).map
    (fun r => jsParseInt (joinIntParts r))

/-- First alternative inside Parser.float: integer, ".", optional digits. -/
def Parser.floatBranch1 : Parser (Option Int × String × Option String) :=
  Parser.seq3 Parser.integer (Parser.utf8 ".") (Parser.digits.optional)

/-- Second alternative inside Parser.float: optional integer, ".", digits. -/
def Parser.floatBranch2 : Parser (Option (Option Int) × String × String) :=
  Parser.seq3 (Parser.integer.optional) (Parser.utf8 ".") Parser.digits

/-- r.filter(isDefined).join("") for the float tuple of either branch
(TypeScript applies one map to the untagged union of the two alternatives;
`Sum` carries the tag here). -/
def joinFloatParts :
    Sum (Option Int × String × Option String)
      (Option (Option Int) × String × String) → String
  | .inl (n, dot, frac) =>
    jsNumToString n ++ dot ++ (match frac with | some f => f | none => "")
  | .inr (n, dot, frac) =>
    (match n with | some v => jsNumToString v | none => "") ++ dot ++ frac

/-- Parser.float: either alternative, with the joined text re-parsed by
parseInt. -/
def Parser.float : Parser (Option Int) :=
  (Parser.or2 (Parser.floatBranch1.map Sum.inl) (Parser.floatBranch2.map Sum.inr)).map
    (fun r => jsParseInt (joinFloatParts r))

/-- Parser.number: float or integer. -/
def Parser.number : Parser (Option Int) :=
  Parser.or2 Parser.float Parser.integer

/-- The many loop exhausts every amount of fuel at this cursor: the source
while-loop never exits. -/
def manyDivergesAt (p : Parser α) (ctx : ParsingState) : Prop :=
  ∀ fuel, Parser.manyParse p fuel ctx = none

/-- k one-character advances of the recovery loop of skipUntilRecovery. -/
def ParsingState.advanceBy (s : ParsingState) : Nat → ParsingState
  | 0 => s
  | k + 1 => (s.nextChar.2).advanceBy k

theorem mk_append_mk (a b : List Char) :
    String.mk a ++ String.mk b = String.mk (a ++ b) :=
  rfl

theorem empty_append_str (s : String) : "" ++ s = s := by
  cases s
  rfl

theorem ParsingState.rollback_copy (s : ParsingState) : s.rollback s.copy = s :=
  rfl

theorem ParsingState.nextChar_fst (s : ParsingState) :
    s.nextChar.1 = s.raw[s.currentPosition]? := by
  unfold ParsingState.nextChar
  cases s.raw[s.currentPosition]? with
  | none => rfl
  | some c =>
    by_cases hc : c = '\n' <;> simp [hc]

theorem ParsingState.nextChar_raw (s : ParsingState) :
    s.nextChar.2.raw = s.raw := by
  unfold ParsingState.nextChar
  cases s.raw[s.currentPosition]? with
  | none => rfl
  | some c =>
    by_cases hc : c = '\n' <;> simp [hc]

theorem ParsingState.nextChar_pos (s : ParsingState) :
    s.nextChar.2.currentPosition = s.currentPosition + 1 := by
  unfold ParsingState.nextChar
  cases s.raw[s.currentPosition]? with
  | none => rfl
  | some c =>
    by_cases hc : c = '\n' <;> simp [hc]

theorem ParsingState.nextChars_raw (n : Nat) : ∀ (s : ParsingState),
    (s.nextChars n).2.raw = s.raw := by
  induction n with
  | zero => intro s; rfl
  | succ n ih =>
    intro s
    calc (s.nextChars (n + 1)).2.raw = (s.nextChar.2.nextChars n).2.raw := rfl
      _ = s.nextChar.2.raw := ih s.nextChar.2
      _ = s.raw := s.nextChar_raw

theorem ParsingState.nextChars_pos (n : Nat) : ∀ (s : ParsingState),
    (s.nextChars n).2.currentPosition = s.currentPosition + n := by
  induction n with
  | zero => intro s; rfl
  | succ n ih =>
    intro s
    calc (s.nextChars (n + 1)).2.currentPosition
        = (s.nextChar.2.nextChars n).2.currentPosition := rfl
      _ = s.nextChar.2.currentPosition + n := ih s.nextChar.2
      _ = s.currentPosition + 1 + n := by rw [s.nextChar_pos]
      _ = s.currentPosition + (n + 1) := by omega

theorem ParsingState.nextChars_str (n : Nat) : ∀ (s : ParsingState),
    (s.nextChars n).1 =
      String.mk ((s.raw.drop s.currentPosition).take n) ++
        undefinedRepeat (n - (s.raw.length - s.currentPosition)) := by
  induction n with
  | zero =>
    intro s
    show "" = String.mk [] ++ undefinedRepeat (0 - _)
    rw [Nat.zero_sub]
    rfl
  | succ n ih =>
    intro s
    have hstep : (s.nextChars (n + 1)).1 =
        jsConcat "" s.nextChar.1 ++ (s.nextChar.2.nextChars n).1 := rfl
    have ihs := ih s.nextChar.2
    rw [ParsingState.nextChar_raw, ParsingState.nextChar_pos] at ihs
    rw [hstep, ihs, ParsingState.nextChar_fst]
    cases hget : s.raw[s.currentPosition]? with
    | none =>
      have hle : s.raw.length ≤ s.currentPosition := by
        simpa using List.getElem?_eq_none_iff.mp hget
      have hd0 : s.raw.drop s.currentPosition = [] := List.drop_eq_nil_of_le hle
      have hd1 : s.raw.drop (s.currentPosition + 1) = [] :=
        List.drop_eq_nil_of_le (Nat.le_trans hle (Nat.le_succ _))
      have hz : s.raw.length - s.currentPosition = 0 := Nat.sub_eq_zero_of_le hle
      have hz1 : s.raw.length - (s.currentPosition + 1) = 0 :=
        Nat.sub_eq_zero_of_le (Nat.le_trans hle (Nat.le_succ _))
      rw [hd0, hd1, hz, hz1]
      simp only [List.take_nil]
      show jsConcat "" none ++ (String.mk [] ++ undefinedRepeat (n - 0)) =
        String.mk [] ++ undefinedRepeat (n + 1 - 0)
      rw [show (String.mk [] : String) = "" from rfl, empty_append_str, empty_append_str]
      show "" ++ "undefined" ++ undefinedRepeat n = undefinedRepeat (n + 1)
      rw [empty_append_str]
      rfl
    | some c =>
      have hlt : s.currentPosition < s.raw.length := by
        by_contra hcon
        have hnone : s.raw[s.currentPosition]? = none := by
          rw [List.getElem?_eq_none_iff]
          omega
        rw [hnone] at hget
        exact Option.noConfusion hget
      have hdrop : s.raw.drop s.currentPosition =
          s.raw[s.currentPosition] :: s.raw.drop (s.currentPosition + 1) :=
        List.drop_eq_getElem_cons hlt
      have hcv : s.raw[s.currentPosition] = c := by
        have hh := List.getElem?_eq_getElem hlt
        rw [hget] at hh
        exact (Option.some.injEq _ _).mp hh.symm
      rw [hcv] at hdrop
      have hsub : n + 1 - (s.raw.length - s.currentPosition) =
          n - (s.raw.length - (s.currentPosition + 1)) := by omega
      rw [hdrop, List.take_succ_cons, hsub]
      rw [show jsConcat "" (some c) = String.mk [c] from rfl,
        ← String.append_assoc, mk_append_mk]
      rfl

theorem ParsingState.nextChars_state_of_le (n : Nat) : ∀ (s : ParsingState),
    s.currentPosition + n ≤ s.raw.length →
    (∀ c ∈ (s.raw.drop s.currentPosition).take n, ¬ c = '\n') →
    (s.nextChars n).2 =
      ⟨s.raw, s.currentPosition + n, s.currentLine, s.currentColumn + n⟩ := by
  induction n with
  | zero =>
    intro s _ _
    show s = _
    ext <;> simp
  | succ n ih =>
    intro s hlen hnl
    have hlt : s.currentPosition < s.raw.length := by omega
    have hdrop : s.raw.drop s.currentPosition =
        s.raw[s.currentPosition] :: s.raw.drop (s.currentPosition + 1) :=
      List.drop_eq_getElem_cons hlt
    have hget : s.raw[s.currentPosition]? = some s.raw[s.currentPosition] :=
      List.getElem?_eq_getElem hlt
    have hcnl : ¬ s.raw[s.currentPosition] = '\n' := by
      apply hnl
      rw [hdrop, List.take_succ_cons]
      exact List.mem_cons_self _ _
    have hnc : s.nextChar = (some s.raw[s.currentPosition],
        ⟨s.raw, s.currentPosition + 1, s.currentLine, s.currentColumn + 1⟩) := by
      unfold ParsingState.nextChar
      rw [hget]
      simp [hcnl]
    have ihs := ih ⟨s.raw, s.currentPosition + 1, s.currentLine, s.currentColumn + 1⟩
      (by simp; omega)
      (by
        intro c hc
        apply hnl
        rw [hdrop, List.take_succ_cons]
        exact List.mem_cons_of_mem _ hc)
    calc (s.nextChars (n + 1)).2 = (s.nextChar.2.nextChars n).2 := rfl
      _ = ((⟨s.raw, s.currentPosition + 1, s.currentLine, s.currentColumn + 1⟩ :
            ParsingState).nextChars n).2 := by rw [hnc]
      _ = ⟨s.raw, s.currentPosition + 1 + n, s.currentLine,
            s.currentColumn + 1 + n⟩ := ihs
      _ = ⟨s.raw, s.currentPosition + (n + 1), s.currentLine,
            s.currentColumn + (n + 1)⟩ := by ext <;> simp <;> omega

theorem ParsingState.nextChars_str_of_le (n : Nat) (s : ParsingState)
    (h : s.currentPosition + n ≤ s.raw.length) :
    (s.nextChars n).1 = String.mk ((s.raw.drop s.currentPosition).take n) := by
  rw [ParsingState.nextChars_str]
  have hz : n - (s.raw.length - s.currentPosition) = 0 := by omega
  rw [hz]
  show _ ++ "" = _
  cases hmk : String.mk ((s.raw.drop s.currentPosition).take n)
  show String.mk (_ ++ []) = _
  rw [List.append_nil]

theorem takeWhile_append_head (p : Char → Bool) :
    ∀ (l1 l2 : List Char), (∀ c ∈ l1, p c = true) →
    (∀ c, l2.head? = some c → p c = false) →
    (l1 ++ l2).takeWhile p = l1 := by
  intro l1
  induction l1 with
  | nil =>
    intro l2 _ h2
    cases l2 with
    | nil => rfl
    | cons c cs =>
      show (c :: cs).takeWhile p = []
      rw [List.takeWhile_cons, h2 c rfl]
      rfl
  | cons a l ih =>
    intro l2 h1 h2
    show (a :: (l ++ l2)).takeWhile p = a :: l
    rw [List.takeWhile_cons, h1 a (List.mem_cons_self _ _)]
    rw [ih l2 (fun c hc => h1 c (List.mem_cons_of_mem _ hc)) h2]
    simp

theorem takeWhile_all (p : Char → Bool) (l : List Char)
    (h : ∀ c ∈ l, p c = true) : l.takeWhile p = l := by
  have hh := takeWhile_append_head p l []
    h (by intro c hc; exact absurd hc (by simp))
  simpa using hh

theorem digit_ne (c : Char) (h : c.isDigit = true) (x : Char)
    (hx : x.isDigit = false) : ¬ c = x := by
  intro he
  rw [he, hx] at h
  exact Bool.noConfusion h

theorem digit_not_space (c : Char) (h : c.isDigit = true) : jsIsSpace c = false := by
  have h1 := digit_ne c h ' ' (by decide)
  have h2 := digit_ne c h '\t' (by decide)
  have h3 := digit_ne c h '\n' (by decide)
  have h4 := digit_ne c h '\r' (by decide)
  simp [jsIsSpace, h1, h2, h3, h4]

theorem digitChar_isDigit (d : Nat) (h : d < 10) :
    (Nat.digitChar d).isDigit = true := by
  interval_cases d <;> decide

theorem digitStep_digitChar (a d : Nat) (h : d < 10) :
    digitStep a (Nat.digitChar d) = a * 10 + d := by
  unfold digitStep
  congr 1
  interval_cases d <;> decide

theorem foldl_digitStep (l : List Char) : ∀ a : Nat,
    l.foldl digitStep a = a * 10 ^ l.length + natOfDigits l := by
  induction l with
  | nil => intro a; simp [natOfDigits]
  | cons c cs ih =>
    intro a
    show cs.foldl digitStep (digitStep a c) = _
    rw [ih (digitStep a c)]
    have h0 : natOfDigits (c :: cs) = digitStep 0 c * 10 ^ cs.length + natOfDigits cs := by
      show cs.foldl digitStep (digitStep 0 c) = _
      rw [ih (digitStep 0 c)]
    rw [h0]
    unfold digitStep
    simp only [List.length_cons]
    ring

theorem natOfDigits_pos (c : Char) (cs : List Char) (h : ('1' ≤ c && c ≤ '9') = true) :
    1 ≤ natOfDigits (c :: cs) := by
  show 1 ≤ (c :: cs).foldl digitStep 0
  rw [show (c :: cs).foldl digitStep 0 = cs.foldl digitStep (digitStep 0 c) from rfl,
    foldl_digitStep]
  have hc : 1 ≤ digitStep 0 c := by
    have hle : '1' ≤ c := of_decide_eq_true (Bool.and_eq_true _ _ |>.mp h).1
    have hv : 49 ≤ c.toNat := hle
    unfold digitStep
    have h48 : '0'.toNat = 48 := by decide
    omega
  have hpow : 1 ≤ 10 ^ cs.length := Nat.one_le_two_pow.trans (Nat.pow_le_pow_left (by omega) _)
  calc 1 ≤ digitStep 0 c * 1 := by omega
    _ ≤ digitStep 0 c * 10 ^ cs.length := Nat.mul_le_mul_left _ hpow
    _ ≤ digitStep 0 c * 10 ^ cs.length + natOfDigits cs := Nat.le_add_right _ _

theorem toDigitsCore_spec : ∀ (fuel : Nat), ∀ (n : Nat) (acc : List Char), n < fuel →
    ∃ pre : List Char, Nat.toDigitsCore 10 fuel n acc = pre ++ acc ∧ pre ≠ [] ∧
      (∀ c ∈ pre, c.isDigit = true) ∧
      ∀ a : Nat, pre.foldl digitStep a = a * 10 ^ pre.length + n := by
  intro fuel
  induction fuel with
  | zero => intro n acc h; omega
  | succ fuel ih =>
    intro n acc h
    have hmod : n % 10 < 10 := Nat.mod_lt _ (by omega)
    by_cases h10 : n / 10 = 0
    · refine ⟨[Nat.digitChar (n % 10)], ?_, by simp, ?_, ?_⟩
      · simp [Nat.toDigitsCore, h10]
      · intro c hc
        have hcc : c = Nat.digitChar (n % 10) := by simpa using hc
        rw [hcc]
        exact digitChar_isDigit _ hmod
      · intro a
        show digitStep a (Nat.digitChar (n % 10)) = a * 10 ^ 1 + n
        rw [digitStep_digitChar _ _ hmod]
        have hn : n % 10 = n := by omega
        rw [hn]
        ring
    · have hlt : n / 10 < fuel := by
        have hdl : n / 10 < n := Nat.div_lt_self (by omega) (by omega)
        omega
      obtain ⟨pre, hpre, _, hdig, hfold⟩ := ih (n / 10) (Nat.digitChar (n % 10) :: acc) hlt
      refine ⟨pre ++ [Nat.digitChar (n % 10)], ?_, by simp, ?_, ?_⟩
      · have hun : Nat.toDigitsCore 10 (fuel + 1) n acc =
            Nat.toDigitsCore 10 fuel (n / 10) (Nat.digitChar (n % 10) :: acc) := by
          simp [Nat.toDigitsCore, h10]
        rw [hun, hpre]
        simp
      · intro c hc
        rcases List.mem_append.mp hc with hm | hm
        · exact hdig c hm
        · have hcc : c = Nat.digitChar (n % 10) := by simpa using hm
          rw [hcc]
          exact digitChar_isDigit _ hmod
      · intro a
        rw [List.foldl_append]
        show List.foldl digitStep (pre.foldl digitStep a) [Nat.digitChar (n % 10)] = _
        rw [hfold a]
        show digitStep (a * 10 ^ pre.length + n / 10) (Nat.digitChar (n % 10)) = _
        rw [digitStep_digitChar _ _ hmod]
        have hdm : 10 * (n / 10) + n % 10 = n := Nat.div_add_mod n 10
        simp only [List.length_append, List.length_cons, List.length_nil]
        calc (a * 10 ^ pre.length + n / 10) * 10 + n % 10
            = a * (10 ^ pre.length * 10) + (10 * (n / 10) + n % 10) := by ring
          _ = a * 10 ^ (pre.length + (0 + 1)) + n := by
              rw [hdm]
              norm_num [pow_succ]

theorem repr_digits (n : Nat) :
    (Nat.repr n).data ≠ [] ∧ (∀ c ∈ (Nat.repr n).data, c.isDigit = true) ∧
      natOfDigits (Nat.repr n).data = n := by
  obtain ⟨pre, hpre, hne, hdig, hfold⟩ :=
    toDigitsCore_spec (n + 1) n [] (Nat.lt_succ_self n)
  have hrepr : (Nat.repr n).data = pre := by
    show (Nat.toDigits 10 n).asString.data = pre
    rw [show Nat.toDigits 10 n = Nat.toDigitsCore 10 (n + 1) n [] from rfl, hpre,
      List.append_nil]
    rfl
  rw [hrepr]
  refine ⟨hne, hdig, ?_⟩
  have hf := hfold 0
  simpa [natOfDigits] using hf

theorem jsSignSplit_nosign (c : Char) (r : List Char) (h1 : ¬ c = '+')
    (h2 : ¬ c = '-') : jsSignSplit (c :: r) = (1, c :: r) := by
  simp [jsSignSplit, h1, h2]

theorem jsSignSplit_plus (r : List Char) : jsSignSplit ('+' :: r) = (1, r) := by
  simp [jsSignSplit]

theorem jsSignSplit_minus (r : List Char) : jsSignSplit ('-' :: r) = (-1, r) := by
  simp [jsSignSplit]

theorem jsParseInt_eq (sgn ds rest : List Char)
    (hs : sgn = [] ∨ sgn = ['+'] ∨ sgn = ['-'])
    (hd : ds ≠ []) (hall : ∀ c ∈ ds, c.isDigit = true)
    (hrest : ∀ c, rest.head? = some c → c.isDigit = false) :
    jsParseInt (String.mk (sgn ++ ds ++ rest)) =
      some ((if sgn = ['-'] then -1 else 1) * (natOfDigits ds : Int)) := by
  obtain ⟨c, cs, rfl⟩ : ∃ c cs, ds = c :: cs := by
    cases ds with
    | nil => exact absurd rfl hd
    | cons c cs => exact ⟨c, cs, rfl⟩
  have hc := hall c (List.mem_cons_self _ _)
  have htw : ((c :: cs) ++ rest).takeWhile Char.isDigit = c :: cs :=
    takeWhile_append_head _ _ _ hall hrest
  have htw2 : (c :: (cs ++ rest)).takeWhile Char.isDigit = c :: cs := htw
  have hnsp : jsIsSpace c = false := digit_not_space c hc
  have hun : ∀ l : List Char, jsParseInt (String.mk l) =
      (if ((jsSignSplit (l.dropWhile jsIsSpace)).2.takeWhile Char.isDigit).isEmpty
        then none
        else some ((jsSignSplit (l.dropWhile jsIsSpace)).1 *
          (natOfDigits ((jsSignSplit (l.dropWhile jsIsSpace)).2.takeWhile
            Char.isDigit) : Int))) := fun l => rfl
  rcases hs with rfl | rfl | rfl
  · rw [hun]
    have hl : ([] ++ (c :: cs) ++ rest : List Char) = c :: (cs ++ rest) := by simp
    rw [hl, List.dropWhile_cons_of_neg (by simp [hnsp]),
      jsSignSplit_nosign c _ (digit_ne c hc '+' (by decide))
        (digit_ne c hc '-' (by decide))]
    simp only [htw2]
    simp
  · rw [hun]
    have hl : (['+'] ++ (c :: cs) ++ rest : List Char) = '+' :: (c :: (cs ++ rest)) := by
      simp
    rw [hl, List.dropWhile_cons_of_neg (by simp [jsIsSpace]), jsSignSplit_plus]
    simp only [htw2]
    simp
  · rw [hun]
    have hl : (['-'] ++ (c :: cs) ++ rest : List Char) = '-' :: (c :: (cs ++ rest)) := by
      simp
    rw [hl, List.dropWhile_cons_of_neg (by simp [jsIsSpace]), jsSignSplit_minus]
    simp only [htw2]
    simp

theorem jsNumToString_ofNat (v : Nat) : jsNumToString (some (v : Int)) = Nat.repr v :=
  rfl

theorem jsNumToString_negSucc (k : Nat) :
    jsNumToString (some (-((k + 1 : Nat) : Int))) = "-" ++ Nat.repr (k + 1) :=
  rfl

theorem jsParseInt_repr_append (v : Nat) (rest : List Char)
    (hrest : ∀ c, rest.head? = some c → c.isDigit = false) :
    jsParseInt (String.mk ((Nat.repr v).data ++ rest)) = some (v : Int) := by
  obtain ⟨hne, hdig, hval⟩ := repr_digits v
  have hh := jsParseInt_eq [] (Nat.repr v).data rest (Or.inl rfl) hne hdig hrest
  rw [List.nil_append] at hh
  rw [hh]
  simp [hval]

theorem jsParseInt_neg_repr_append (v : Nat) (rest : List Char)
    (hrest : ∀ c, rest.head? = some c → c.isDigit = false) :
    jsParseInt (String.mk ('-' :: ((Nat.repr v).data ++ rest))) = some (-(v : Int)) := by
  obtain ⟨hne, hdig, hval⟩ := repr_digits v
  have hh := jsParseInt_eq ['-'] (Nat.repr v).data rest (Or.inr (Or.inr rfl)) hne hdig hrest
  have hl : (['-'] ++ (Nat.repr v).data ++ rest : List Char) =
      '-' :: ((Nat.repr v).data ++ rest) := by simp
  rw [hl] at hh
  rw [hh]
  simp [hval]

theorem Parser.run_mk (f : ParsingState → Result α × ParsingState) (s : ParsingState) :
    (Parser.mk f).run s = f s :=
  rfl

theorem Parser.parse_of_le (p : Parser α) (s : ParsingState)
    (h : s.currentPosition ≤ s.raw.length) : p.parse s = p.run s := by
  unfold Parser.parse
  rw [if_neg (by omega)]

theorem ParsingState.nextChar_some (s : ParsingState) (c : Char)
    (hget : s.raw[s.currentPosition]? = some c) (hnl : ¬ c = '\n') :
    s.nextChar =
      (some c, ⟨s.raw, s.currentPosition + 1, s.currentLine, s.currentColumn + 1⟩) := by
  unfold ParsingState.nextChar
  rw [hget]
  simp [hnl]

theorem ParsingState.nextChar_none (s : ParsingState)
    (hget : s.raw[s.currentPosition]? = none) :
    s.nextChar =
      (none, ⟨s.raw, s.currentPosition + 1, s.currentLine, s.currentColumn + 1⟩) := by
  unfold ParsingState.nextChar
  rw [hget]

theorem Parser.utf8_success (exp : String) (s : ParsingState) (c : Char)
    (hg : s.currentPosition ≤ s.raw.length)
    (hget : s.raw[s.currentPosition]? = some c) (hnl : ¬ c = '\n')
    (he : String.mk [c] = exp) :
    (Parser.utf8 exp).parse s =
      (.success ⟨s.currentPosition, s.currentPosition + 1, s.currentLine, s.currentLine,
        s.currentColumn, s.currentColumn + 1⟩ exp,
       ⟨s.raw, s.currentPosition + 1, s.currentLine, s.currentColumn + 1⟩) := by
  rw [Parser.parse_of_le _ _ hg]
  simp only [Parser.utf8, Parser.run_mk, s.nextChar_some c hget hnl]
  rw [if_pos he]
  rfl

theorem Parser.utf8_fail_char (exp : String) (s : ParsingState) (c : Char)
    (hg : s.currentPosition ≤ s.raw.length)
    (hget : s.raw[s.currentPosition]? = some c) (hnl : ¬ c = '\n')
    (he : ¬ String.mk [c] = exp) :
    (Parser.utf8 exp).parse s =
      (.failure .EXPECTED_LITERAL ("Expected character: " ++ exp)
        ⟨s.currentPosition, s.currentPosition + 1, s.currentLine, s.currentLine,
          s.currentColumn, s.currentColumn + 1⟩, s) := by
  rw [Parser.parse_of_le _ _ hg]
  simp only [Parser.utf8, Parser.run_mk, s.nextChar_some c hget hnl]
  rw [if_neg he]
  rfl

theorem Parser.utf8_fail_eof (exp : String) (s : ParsingState)
    (hg : s.currentPosition ≤ s.raw.length)
    (hget : s.raw[s.currentPosition]? = none) (hne : exp ≠ "") :
    (Parser.utf8 exp).parse s =
      (.failure .UNEXPECTED_EOF "Unexpected EOF"
        ⟨s.currentPosition, s.currentPosition + 1, s.currentLine, s.currentLine,
          s.currentColumn, s.currentColumn + 1⟩, s) := by
  rw [Parser.parse_of_le _ _ hg]
  simp only [Parser.utf8, Parser.run_mk, s.nextChar_none hget]
  rw [if_pos hne]
  rfl

theorem Parser.regex_success (matcher : List Char → Option (List Char))
    (s : ParsingState) (m : List Char)
    (hg : s.currentPosition ≤ s.raw.length)
    (hm : matcher s.peekRemainder = some m)
    (hpre : (s.raw.drop s.currentPosition).take m.length = m)
    (hnl : ∀ c ∈ m, ¬ c = '\n') :
    (Parser.regex matcher).parse s =
      (.success ⟨s.currentPosition, s.currentPosition + m.length, s.currentLine,
        s.currentLine, s.currentColumn, s.currentColumn + m.length⟩ (String.mk m),
       ⟨s.raw, s.currentPosition + m.length, s.currentLine,
         s.currentColumn + m.length⟩) := by
  have hmlen : s.currentPosition + m.length ≤ s.raw.length := by
    have hlen := congrArg List.length hpre
    rw [List.length_take, List.length_drop] at hlen
    omega
  rw [Parser.parse_of_le _ _ hg]
  simp only [Parser.regex, Parser.run_mk, hm]
  rw [ParsingState.nextChars_str_of_le _ _ hmlen,
    ParsingState.nextChars_state_of_le _ _ hmlen
      (by intro c hc; rw [hpre] at hc; exact hnl c hc), hpre]
  rfl

theorem Parser.regex_fail (matcher : List Char → Option (List Char))
    (s : ParsingState) (hg : s.currentPosition ≤ s.raw.length)
    (hm : matcher s.peekRemainder = none) :
    (Parser.regex matcher).parse s =
      (.failure .EXPECTED_REGEX "Expected to match regex" (s.meta s.copy), s) := by
  rw [Parser.parse_of_le _ _ hg]
  simp only [Parser.regex, Parser.run_mk, hm]
  rfl

theorem Parser.map_success (p : Parser α) (f : α → β) (s : ParsingState)
    (m : Meta) (d : α) (s1 : ParsingState)
    (hg : s.currentPosition ≤ s.raw.length)
    (h : p.parse s = (.success m d, s1)) :
    (p.map f).parse s = (.success m (f d), s1) := by
  rw [Parser.parse_of_le _ _ hg]
  simp only [Parser.map, Parser.run_mk, h]

theorem Parser.map_fail (p : Parser α) (f : α → β) (s : ParsingState)
    (c : ParserErrorCode) (msg : String) (mt : Meta) (s1 : ParsingState)
    (hg : s.currentPosition ≤ s.raw.length)
    (h : p.parse s = (.failure c msg mt, s1)) :
    (p.map f).parse s = (.failure c msg mt, s1) := by
  rw [Parser.parse_of_le _ _ hg]
  simp only [Parser.map, Parser.run_mk, h]

theorem Parser.optional_of_success (p : Parser α) (s : ParsingState)
    (m : Meta) (d : α) (s1 : ParsingState)
    (hg : s.currentPosition ≤ s.raw.length)
    (h : p.parse s = (.success m d, s1)) :
    (Parser.optional p).parse s = (.success m (some d), s1) := by
  rw [Parser.parse_of_le _ _ hg]
  simp only [Parser.optional, Parser.run_mk, h]

theorem Parser.optional_of_fail (p : Parser α) (s : ParsingState)
    (c : ParserErrorCode) (msg : String) (mt : Meta) (s1 : ParsingState)
    (hg : s.currentPosition ≤ s.raw.length)
    (h : p.parse s = (.failure c msg mt, s1)) :
    (Parser.optional p).parse s = (.success (s1.meta s.copy) none, s1) := by
  rw [Parser.parse_of_le _ _ hg]
  simp only [Parser.optional, Parser.run_mk, h]
  rfl

theorem Parser.or2_first (p q : Parser α) (s : ParsingState)
    (m : Meta) (d : α) (s1 : ParsingState)
    (hg : s.currentPosition ≤ s.raw.length)
    (h : p.parse s = (.success m d, s1)) :
    (Parser.or2 p q).parse s = (.success m d, s1) := by
  rw [Parser.parse_of_le _ _ hg]
  simp only [Parser.or2, Parser.or, Parser.run_mk, Parser.orGo, h]

theorem Parser.or2_second (p q : Parser α) (s : ParsingState)
    (c : ParserErrorCode) (msg : String) (mt : Meta) (s1 : ParsingState)
    (m : Meta) (d : α) (s2 : ParsingState)
    (hg : s.currentPosition ≤ s.raw.length)
    (h1 : p.parse s = (.failure c msg mt, s1))
    (h2 : q.parse s1 = (.success m d, s2)) :
    (Parser.or2 p q).parse s = (.success m d, s2) := by
  rw [Parser.parse_of_le _ _ hg]
  simp only [Parser.or2, Parser.or, Parser.run_mk, Parser.orGo, h1, h2]

theorem Parser.or2_both_fail (p q : Parser α) (s : ParsingState)
    (c1 : ParserErrorCode) (msg1 : String) (mt1 : Meta) (s1 : ParsingState)
    (c2 : ParserErrorCode) (msg2 : String) (mt2 : Meta) (s2 : ParsingState)
    (hg : s.currentPosition ≤ s.raw.length)
    (h1 : p.parse s = (.failure c1 msg1 mt1, s1))
    (h2 : q.parse s1 = (.failure c2 msg2 mt2, s2)) :
    (Parser.or2 p q).parse s =
      (.failure .ALL_PARSERS_FAILED "All parsers failed" (s2.meta s.copy),
       s2.rollback s.copy) := by
  rw [Parser.parse_of_le _ _ hg]
  simp only [Parser.or2, Parser.or, Parser.run_mk, Parser.orGo, h1, h2]
  rfl

theorem Parser.seq2_success (p : Parser α) (q : Parser β) (s : ParsingState)
    (m1 : Meta) (a : α) (s1 : ParsingState) (m2 : Meta) (b : β) (s2 : ParsingState)
    (hg : s.currentPosition ≤ s.raw.length)
    (h1 : p.parse s = (.success m1 a, s1))
    (h2 : q.parse s1 = (.success m2 b, s2)) :
    (Parser.seq2 p q).parse s = (.success (s2.meta s.copy) (a, b), s2) := by
  rw [Parser.parse_of_le _ _ hg]
  simp only [Parser.seq2, Parser.run_mk, h1, h2]
  rfl

theorem Parser.seq3_success (p : Parser α) (q : Parser β) (r : Parser γ)
    (s : ParsingState)
    (m1 : Meta) (a : α) (s1 : ParsingState) (m2 : Meta) (b : β) (s2 : ParsingState)
    (m3 : Meta) (cv : γ) (s3 : ParsingState)
    (hg : s.currentPosition ≤ s.raw.length)
    (h1 : p.parse s = (.success m1 a, s1))
    (h2 : q.parse s1 = (.success m2 b, s2))
    (h3 : r.parse s2 = (.success m3 cv, s3)) :
    (Parser.seq3 p q r).parse s = (.success (s3.meta s.copy) (a, b, cv), s3) := by
  rw [Parser.parse_of_le _ _ hg]
  simp only [Parser.seq3, Parser.run_mk, h1, h2, h3]
  rfl

theorem Parser.seq3_fail1 (p : Parser α) (q : Parser β) (r : Parser γ)
    (s : ParsingState)
    (c : ParserErrorCode) (msg : String) (mt : Meta) (s1 : ParsingState)
    (hg : s.currentPosition ≤ s.raw.length)
    (h1 : p.parse s = (.failure c msg mt, s1)) :
    (Parser.seq3 p q r).parse s = (.failure c msg mt, s1.rollback s.copy) := by
  rw [Parser.parse_of_le _ _ hg]
  simp only [Parser.seq3, Parser.run_mk, h1]

theorem Parser.seq3_fail2 (p : Parser α) (q : Parser β) (r : Parser γ)
    (s : ParsingState)
    (m1 : Meta) (a : α) (s1 : ParsingState)
    (c : ParserErrorCode) (msg : String) (mt : Meta) (s2 : ParsingState)
    (hg : s.currentPosition ≤ s.raw.length)
    (h1 : p.parse s = (.success m1 a, s1))
    (h2 : q.parse s1 = (.failure c msg mt, s2)) :
    (Parser.seq3 p q r).parse s = (.failure c msg mt, s2.rollback s.copy) := by
  rw [Parser.parse_of_le _ _ hg]
  simp only [Parser.seq3, Parser.run_mk, h1, h2]

theorem ParsingState.rollback_to_self (s1 s : ParsingState) (h : s1.raw = s.raw) :
    s1.rollback s.copy = s := by
  unfold ParsingState.rollback ParsingState.copy
  rw [h]

theorem Parser.utf8_fail_parts (exp : String) (s : ParsingState)
    (h : ((Parser.utf8 exp).parse s).1.isFailure = true) :
    ((Parser.utf8 exp).parse s).2 = s ∧
    ((Parser.utf8 exp).parse s).1.metaOf.start = s.currentPosition ∧
    ((Parser.utf8 exp).parse s).1.metaOf.startLine = s.currentLine ∧
    ((Parser.utf8 exp).parse s).1.metaOf.startColumn = s.currentColumn ∧
    (s.currentPosition ≤ s.raw.length →
      ((Parser.utf8 exp).parse s).1.metaOf.stop = s.currentPosition + 1) := by
  unfold Parser.parse at h ⊢
  by_cases hg : s.raw.length < s.currentPosition
  · rw [if_pos hg] at h ⊢
    exact ⟨rfl, rfl, rfl, rfl, by intro hle; omega⟩
  · rw [if_neg hg] at h ⊢
    simp only [Parser.utf8, Parser.run_mk] at h ⊢
    cases hc1 : s.nextChar.1 with
    | none =>
      dsimp only at h ⊢
      by_cases hne : exp ≠ ""
      · rw [if_pos hne]
        refine ⟨ParsingState.rollback_to_self _ _ s.nextChar_raw, ?_, ?_, ?_, ?_⟩ <;>
          simp [trxFailure, Result.metaOf, ParsingState.meta, ParsingState.copy,
            s.nextChar_pos]
      · rw [if_neg hne]
        refine ⟨ParsingState.rollback_to_self _ _ s.nextChar_raw, ?_, ?_, ?_, ?_⟩ <;>
          simp [trxFailure, Result.metaOf, ParsingState.meta, ParsingState.copy,
            s.nextChar_pos]
    | some c =>
      dsimp only
      rw [hc1] at h
      dsimp only at h
      by_cases he : String.mk [c] = exp
      · rw [if_pos he] at h
        exact absurd h (by simp [trxSuccess, Result.isFailure])
      · rw [if_neg he]
        refine ⟨ParsingState.rollback_to_self _ _ s.nextChar_raw, ?_, ?_, ?_, ?_⟩ <;>
          simp [trxFailure, Result.metaOf, ParsingState.meta, ParsingState.copy,
            s.nextChar_pos]

theorem Parser.literal_fail_parts (exp : String) (ci : Bool) (s : ParsingState)
    (h : ((Parser.literal exp ci).parse s).1.isFailure = true) :
    ((Parser.literal exp ci).parse s).2 = s ∧
    ((Parser.literal exp ci).parse s).1.metaOf.start = s.currentPosition ∧
    ((Parser.literal exp ci).parse s).1.metaOf.startLine = s.currentLine ∧
    ((Parser.literal exp ci).parse s).1.metaOf.startColumn = s.currentColumn ∧
    (s.currentPosition ≤ s.raw.length →
      ((Parser.literal exp ci).parse s).1.metaOf.stop =
        s.currentPosition + exp.length) := by
  unfold Parser.parse at h ⊢
  by_cases hg : s.raw.length < s.currentPosition
  · rw [if_pos hg] at h ⊢
    exact ⟨rfl, rfl, rfl, rfl, by intro hle; omega⟩
  · rw [if_neg hg] at h ⊢
    simp only [Parser.literal, Parser.run_mk] at h ⊢
    by_cases hcmp : (if ci then (s.nextChars exp.length).1.toLower
        else (s.nextChars exp.length).1) = (if ci then exp.toLower else exp)
    · rw [if_pos hcmp] at h
      exact absurd h (by simp [trxSuccess, Result.isFailure])
    · rw [if_neg hcmp]
      refine ⟨ParsingState.rollback_to_self _ _ (ParsingState.nextChars_raw _ _), ?_, ?_,
          ?_, ?_⟩ <;>
        simp [trxFailure, Result.metaOf, ParsingState.meta, ParsingState.copy,
          ParsingState.nextChars_pos]

theorem Parser.regex_fail_parts (matcher : List Char → Option (List Char))
    (s : ParsingState)
    (h : ((Parser.regex matcher).parse s).1.isFailure = true) :
    ((Parser.regex matcher).parse s).2 = s ∧
    ((Parser.regex matcher).parse s).1.metaOf.start = s.currentPosition ∧
    ((Parser.regex matcher).parse s).1.metaOf.startLine = s.currentLine ∧
    ((Parser.regex matcher).parse s).1.metaOf.startColumn = s.currentColumn ∧
    (matcher s.peekRemainder = none →
      ((Parser.regex matcher).parse s).1.metaOf.stop = s.currentPosition) := by
  unfold Parser.parse at h ⊢
  by_cases hg : s.raw.length < s.currentPosition
  · rw [if_pos hg] at h ⊢
    exact ⟨rfl, rfl, rfl, rfl, fun _ => rfl⟩
  · rw [if_neg hg] at h ⊢
    simp only [Parser.regex, Parser.run_mk] at h ⊢
    cases hm : matcher s.peekRemainder with
    | none =>
      dsimp only
      refine ⟨ParsingState.rollback_to_self s s rfl, ?_, ?_, ?_, ?_⟩ <;>
        simp [trxFailure, Result.metaOf, ParsingState.meta, ParsingState.copy]
    | some m =>
      rw [hm] at h
      dsimp only at h
      exact absurd h (by simp [trxSuccess, Result.isFailure])

theorem Parser.seqGo_fail (init : State) : ∀ (ps : List (Parser α)) (s : ParsingState)
    (acc : List α),
    (Parser.seqGo init ps s acc).1.isFailure = true →
    (Parser.seqGo init ps s acc).2.currentPosition = init.currentPosition ∧
    (Parser.seqGo init ps s acc).2.currentLine = init.currentLine ∧
    (Parser.seqGo init ps s acc).2.currentColumn = init.currentColumn := by
  intro ps
  induction ps with
  | nil =>
    intro s acc h
    exact absurd h (by simp [Parser.seqGo, trxSuccess, Result.isFailure])
  | cons p ps ih =>
    intro s acc h
    rcases hp : p.parse s with ⟨r, s1⟩
    cases r with
    | failure c m mt =>
      have hstep : Parser.seqGo init (p :: ps) s acc = (.failure c m mt, s1.rollback init) := by
        simp [Parser.seqGo, hp]
      rw [hstep]
      exact ⟨rfl, rfl, rfl⟩
    | success m d =>
      have hstep : Parser.seqGo init (p :: ps) s acc =
          Parser.seqGo init ps s1 (acc ++ [d]) := by
        simp [Parser.seqGo, hp]
      rw [hstep] at h ⊢
      exact ih s1 _ h

theorem Parser.orGo_fail (init : State) : ∀ (ps : List (Parser α)) (s : ParsingState),
    (Parser.orGo init ps s).1.isFailure = true →
    (Parser.orGo init ps s).1.errCode = some .ALL_PARSERS_FAILED ∧
    (Parser.orGo init ps s).2.currentPosition = init.currentPosition ∧
    (Parser.orGo init ps s).2.currentLine = init.currentLine ∧
    (Parser.orGo init ps s).2.currentColumn = init.currentColumn := by
  intro ps
  induction ps with
  | nil =>
    intro s _
    exact ⟨rfl, rfl, rfl, rfl⟩
  | cons p ps ih =>
    intro s h
    rcases hp : p.parse s with ⟨r, s1⟩
    cases r with
    | success m d =>
      have hstep : Parser.orGo init (p :: ps) s = (.success m d, s1) := by
        simp [Parser.orGo, hp]
      rw [hstep] at h
      exact absurd h (by simp [Result.isFailure])
    | failure c m mt =>
      have hstep : Parser.orGo init (p :: ps) s = Parser.orGo init ps s1 := by
        simp [Parser.orGo, hp]
      rw [hstep] at h ⊢
      exact ih s1 h

theorem Parser.manyGo_stuck (p : Parser α) (init : State) (s1 : ParsingState)
    (m : Meta) (d : α)
    (hp : p.parse s1 = (.success m d, s1))
    (hne : ¬ s1.currentPosition = init.currentPosition) :
    ∀ (fuel : Nat) (acc : List α), Parser.manyGo p init fuel s1 acc = none := by
  intro fuel
  induction fuel with
  | zero => intro acc; rfl
  | succ fuel ih =>
    intro acc
    have hstep : Parser.manyGo p init (fuel + 1) s1 acc =
        Parser.manyGo p init fuel s1 (acc ++ [d]) := by
      simp [Parser.manyGo, hp, hne]
    rw [hstep]
    exact ih _

theorem Parser.manyGo_step (p : Parser α) (init : State) (fuel : Nat)
    (s : ParsingState) (acc : List α) (m : Meta) (d : α) (s1 : ParsingState)
    (hp : p.parse s = (.success m d, s1))
    (hne : ¬ s1.currentPosition = init.currentPosition) :
    Parser.manyGo p init (fuel + 1) s acc =
      Parser.manyGo p init fuel s1 (acc ++ [d]) := by
  show (match p.parse s with
    | (.failure _ _ _, sx) => some (trxSuccess init sx acc)
    | (.success _ dx, sx) =>
      if sx.currentPosition = init.currentPosition then some (trxSuccess init sx acc)
      else Parser.manyGo p init fuel sx (acc ++ [dx])) = _
  rw [hp]
  dsimp only
  rw [if_neg hne]

theorem Parser.manyParse_of_le (p : Parser α) (fuel : Nat) (s : ParsingState)
    (h : s.currentPosition ≤ s.raw.length) :
    Parser.manyParse p fuel s = Parser.manyGo p s.copy fuel s [] := by
  unfold Parser.manyParse
  rw [if_neg (by omega)]

theorem Parser.sepByParse_of_le (item : Parser α) (delim : Parser β) (fuel : Nat)
    (s : ParsingState) (h : s.currentPosition ≤ s.raw.length) :
    Parser.sepByParse item delim fuel s = Parser.sepByRun item delim fuel s := by
  unfold Parser.sepByParse
  rw [if_neg (by omega)]

theorem Parser.skipParse_of_le (base : Parser α) (rec : Parser β) (fuel : Nat)
    (s : ParsingState) (h : s.currentPosition ≤ s.raw.length) :
    Parser.skipParse base rec fuel s = Parser.skipUntilRecovery base rec fuel s := by
  unfold Parser.skipParse
  rw [if_neg (by omega)]

theorem Parser.sepByGo_fail (item : Parser α) (delim : Parser β) (init : State) :
    ∀ (fuel : Nat) (s : ParsingState) (acc : List α) (r : Result (List α))
      (sF : ParsingState),
    Parser.sepByGo item delim init fuel s acc = some (r, sF) →
    r.isFailure = true →
    sF.currentPosition = init.currentPosition ∧
    sF.currentLine = init.currentLine ∧
    sF.currentColumn = init.currentColumn := by
  intro fuel
  induction fuel with
  | zero => intro s acc r sF h _; exact Option.noConfusion h
  | succ fuel ih =>
    intro s acc r sF h hf
    rcases hd : delim.parse s with ⟨rd, s1⟩
    cases rd with
    | failure c m mt =>
      have hstep : Parser.sepByGo item delim init (fuel + 1) s acc =
          some (trxSuccess init s1 acc) := by
        simp [Parser.sepByGo, hd]
      rw [hstep] at h
      have hpair := (Option.some.injEq _ _).mp h
      have hr : r = (trxSuccess init s1 acc).1 := (congrArg Prod.fst hpair).symm
      rw [hr] at hf
      exact absurd hf (by simp [trxSuccess, Result.isFailure])
    | success m d =>
      rcases hi : item.parse s1 with ⟨ri, s2⟩
      cases ri with
      | failure c mm mt =>
        have hstep : Parser.sepByGo item delim init (fuel + 1) s acc =
            some (.failure c mm mt, s2.rollback init) := by
          simp [Parser.sepByGo, hd, hi]
        rw [hstep] at h
        have hpair := (Option.some.injEq _ _).mp h
        have hsF : sF = s2.rollback init := (congrArg Prod.snd hpair).symm
        rw [hsF]
        exact ⟨rfl, rfl, rfl⟩
      | success mm dd =>
        have hstep : Parser.sepByGo item delim init (fuel + 1) s acc =
            Parser.sepByGo item delim init fuel s2 (acc ++ [dd]) := by
          simp [Parser.sepByGo, hd, hi]
        rw [hstep] at h
        exact ih s2 _ r sF h hf

theorem ParsingState.advanceBy_raw : ∀ (k : Nat) (s : ParsingState),
    (s.advanceBy k).raw = s.raw := by
  intro k
  induction k with
  | zero => intro s; rfl
  | succ k ih =>
    intro s
    calc (s.advanceBy (k + 1)).raw = (s.nextChar.2.advanceBy k).raw := rfl
      _ = s.nextChar.2.raw := ih s.nextChar.2
      _ = s.raw := s.nextChar_raw

theorem ParsingState.advanceBy_pos : ∀ (k : Nat) (s : ParsingState),
    (s.advanceBy k).currentPosition = s.currentPosition + k := by
  intro k
  induction k with
  | zero => intro s; rfl
  | succ k ih =>
    intro s
    calc (s.advanceBy (k + 1)).currentPosition
        = (s.nextChar.2.advanceBy k).currentPosition := rfl
      _ = s.nextChar.2.currentPosition + k := ih s.nextChar.2
      _ = s.currentPosition + 1 + k := by rw [s.nextChar_pos]
      _ = s.currentPosition + (k + 1) := by omega

theorem Parser.skipGo_stuck (base : Parser α) (rec : Parser β) (snap : State)
    (origF : Result (Option α)) :
    ∀ (fuel : Nat) (s : ParsingState),
    (∀ k, k ≤ s.raw.length - s.currentPosition →
      (rec.parse (s.advanceBy k)).1.isFailure = true ∧
      (rec.parse (s.advanceBy k)).2 = s.advanceBy k) →
    s.raw.length - s.currentPosition < fuel →
    Parser.skipGo base rec snap origF fuel s =
      some (origF, s.advanceBy (s.raw.length - s.currentPosition)) := by
  intro fuel
  induction fuel with
  | zero => intro s _ h; omega
  | succ fuel ih =>
    intro s hr hf
    by_cases hpos : s.currentPosition < s.raw.length
    · obtain ⟨hfail, hrest⟩ := hr 0 (by omega)
      have h0 : s.advanceBy 0 = s := rfl
      rw [h0] at hfail hrest
      obtain ⟨c, m, mt, hrp⟩ : ∃ c m mt, rec.parse s = (.failure c m mt, s) := by
        rcases hrp : rec.parse s with ⟨r, sx⟩
        rw [hrp] at hfail hrest
        cases r with
        | success mm dd => exact absurd hfail (by simp [Result.isFailure])
        | failure c m mt =>
          refine ⟨c, m, mt, ?_⟩
          have hsx : sx = s := hrest
          rw [hsx]
      have hstep : Parser.skipGo base rec snap origF (fuel + 1) s =
          Parser.skipGo base rec snap origF fuel s.nextChar.2 := by
        simp [Parser.skipGo, hpos, hrp]
      rw [hstep]
      have hraw : s.nextChar.2.raw = s.raw := s.nextChar_raw
      have hp2 : s.nextChar.2.currentPosition = s.currentPosition + 1 := s.nextChar_pos
      have hsplit : s.raw.length - s.currentPosition =
          (s.raw.length - (s.currentPosition + 1)) + 1 := by omega
      have ihx := ih s.nextChar.2
        (by
          intro k hk
          rw [hraw, hp2] at hk
          have hk2 : k + 1 ≤ s.raw.length - s.currentPosition := by omega
          obtain ⟨hf2, hr2⟩ := hr (k + 1) hk2
          have hadv : s.advanceBy (k + 1) = s.nextChar.2.advanceBy k := rfl
          rw [hadv] at hf2 hr2
          exact ⟨hf2, hr2⟩)
        (by rw [hraw, hp2]; omega)
      rw [ihx]
      rw [hraw, hp2]
      have hadv2 : s.advanceBy ((s.raw.length - (s.currentPosition + 1)) + 1) =
          s.nextChar.2.advanceBy (s.raw.length - (s.currentPosition + 1)) := rfl
      rw [hsplit, hadv2]
    · have hz : s.raw.length - s.currentPosition = 0 := by omega
      have hstep : Parser.skipGo base rec snap origF (fuel + 1) s = some (origF, s) := by
        simp [Parser.skipGo, hpos]
      rw [hstep, hz]
      rfl

theorem mk_data (s : String) : String.mk s.data = s :=
  rfl

theorem string_eq_of_data (a b : String) (h : a.data = b.data) : a = b := by
  cases a
  cases b
  exact congrArg String.mk h

theorem mk_single_ne (c d : Char) (h : ¬ c = d) :
    ¬ String.mk [c] = String.mk [d] := by
  intro he
  have hd := congrArg String.data he
  exact h (List.cons.inj hd).1

theorem nonzero_digit_isDigit (c : Char) (h : ('1' ≤ c && c ≤ '9') = true) :
    c.isDigit = true := by
  obtain ⟨h1, h2⟩ := Bool.and_eq_true _ _ |>.mp h
  have hl : (49 : Nat) ≤ c.toNat := of_decide_eq_true h1
  have hr : c.toNat ≤ (57 : Nat) := of_decide_eq_true h2
  show (c.val ≥ 48 && c.val ≤ 57) = true
  refine Bool.and_eq_true _ _ |>.mpr ⟨?_, ?_⟩
  · exact decide_eq_true (show (48 : Nat) ≤ c.toNat by omega)
  · exact decide_eq_true hr

theorem digit_ne_newline (c : Char) (h : c.isDigit = true) : ¬ c = '\n' :=
  digit_ne c h '\n' (by decide)

theorem digit_ne_plus (c : Char) (h : c.isDigit = true) : ¬ c = '+' :=
  digit_ne c h '+' (by decide)

theorem digit_ne_minus (c : Char) (h : c.isDigit = true) : ¬ c = '-' :=
  digit_ne c h '-' (by decide)

theorem ParsingState.remainder_length (s : ParsingState) (l : List Char)
    (h : s.peekRemainder = l) : s.raw.length - s.currentPosition = l.length := by
  have hh := congrArg List.length h
  simpa [ParsingState.peekRemainder] using hh

theorem ParsingState.head_of_remainder (s : ParsingState) (c : Char) (t : List Char)
    (h : s.peekRemainder = c :: t) : s.raw[s.currentPosition]? = some c := by
  have hlen := s.remainder_length _ h
  have hlt : s.currentPosition < s.raw.length := by
    simp at hlen
    omega
  have hdrop : s.raw.drop s.currentPosition =
      s.raw[s.currentPosition] :: s.raw.drop (s.currentPosition + 1) :=
    List.drop_eq_getElem_cons hlt
  have hh : s.raw[s.currentPosition] :: s.raw.drop (s.currentPosition + 1) = c :: t := by
    rw [← hdrop]
    exact h
  rw [List.getElem?_eq_getElem hlt, (List.cons.inj hh).1]

theorem ParsingState.remainder_advance (s : ParsingState) (c : Char) (t : List Char)
    (h : s.peekRemainder = c :: t) (line col : Nat) :
    (⟨s.raw, s.currentPosition + 1, line, col⟩ : ParsingState).peekRemainder = t := by
  show s.raw.drop (s.currentPosition + 1) = t
  have hlen := s.remainder_length _ h
  have hlt : s.currentPosition < s.raw.length := by
    simp at hlen
    omega
  have hdrop : s.raw.drop s.currentPosition =
      s.raw[s.currentPosition] :: s.raw.drop (s.currentPosition + 1) :=
    List.drop_eq_getElem_cons hlt
  have hh : s.raw[s.currentPosition] :: s.raw.drop (s.currentPosition + 1) = c :: t := by
    rw [← hdrop]
    exact h
  exact (List.cons.inj hh).2

theorem Parser.signOpt_nosign (s : ParsingState)
    (hg : s.currentPosition ≤ s.raw.length)
    (hc : ∀ c, s.raw[s.currentPosition]? = some c →
      (¬ c = '+') ∧ (¬ c = '-') ∧ ¬ c = '\n') :
    Parser.signOpt.parse s = (.success (s.meta s.copy) none, s) := by
  cases hget : s.raw[s.currentPosition]? with
  | none =>
    have h1 := Parser.utf8_fail_eof "+" s hg hget (by decide)
    have h2 := Parser.utf8_fail_eof "-" s hg hget (by decide)
    have hor := Parser.or2_both_fail _ _ s _ _ _ _ _ _ _ _ hg h1 h2
    rw [ParsingState.rollback_to_self s s rfl] at hor
    unfold Parser.signOpt
    exact Parser.optional_of_fail _ s _ _ _ s hg hor
  | some c =>
    obtain ⟨h1c, h2c, hnlc⟩ := hc c hget
    have h1 := Parser.utf8_fail_char "+" s c hg hget hnlc
      (fun he => mk_single_ne c '+' h1c (he.trans (by decide)))
    have h2 := Parser.utf8_fail_char "-" s c hg hget hnlc
      (fun he => mk_single_ne c '-' h2c (he.trans (by decide)))
    have hor := Parser.or2_both_fail _ _ s _ _ _ _ _ _ _ _ hg h1 h2
    rw [ParsingState.rollback_to_self s s rfl] at hor
    unfold Parser.signOpt
    exact Parser.optional_of_fail _ s _ _ _ s hg hor

theorem Parser.signOpt_plus (s : ParsingState)
    (hg : s.currentPosition ≤ s.raw.length)
    (hget : s.raw[s.currentPosition]? = some '+') :
    Parser.signOpt.parse s =
      (.success ⟨s.currentPosition, s.currentPosition + 1, s.currentLine, s.currentLine,
        s.currentColumn, s.currentColumn + 1⟩ (some "+"),
       ⟨s.raw, s.currentPosition + 1, s.currentLine, s.currentColumn + 1⟩) := by
  have h1 := Parser.utf8_success "+" s '+' hg hget (by decide) (by decide)
  unfold Parser.signOpt
  exact Parser.optional_of_success _ _ _ _ _ hg (Parser.or2_first _ _ _ _ _ _ hg h1)

theorem Parser.signOpt_minus (s : ParsingState)
    (hg : s.currentPosition ≤ s.raw.length)
    (hget : s.raw[s.currentPosition]? = some '-') :
    Parser.signOpt.parse s =
      (.success ⟨s.currentPosition, s.currentPosition + 1, s.currentLine, s.currentLine,
        s.currentColumn, s.currentColumn + 1⟩ (some "-"),
       ⟨s.raw, s.currentPosition + 1, s.currentLine, s.currentColumn + 1⟩) := by
  have h1 := Parser.utf8_fail_char "+" s '-' hg hget (by decide) (by decide)
  have h2 := Parser.utf8_success "-" s '-' hg hget (by decide) (by decide)
  unfold Parser.signOpt
  exact Parser.optional_of_success _ _ _ _ _ hg (Parser.or2_second _ _ _ _ _ _ _ _ _ _ hg h1 h2)

theorem Parser.unsinged_integer_run (s : ParsingState) (c : Char) (cs rest : List Char)
    (hg : s.currentPosition ≤ s.raw.length)
    (hrem : s.peekRemainder = c :: (cs ++ rest))
    (hc : ('1' ≤ c && c ≤ '9') = true)
    (hcs : ∀ x ∈ cs, x.isDigit = true)
    (hrest : ∀ x, rest.head? = some x → x.isDigit = false) :
    Parser.unsinged_integer.parse s =
      (.success ⟨s.currentPosition, s.currentPosition + (c :: cs).length, s.currentLine,
          s.currentLine, s.currentColumn, s.currentColumn + (c :: cs).length⟩
        (some (natOfDigits (c :: cs) : Int)),
       ⟨s.raw, s.currentPosition + (c :: cs).length, s.currentLine,
         s.currentColumn + (c :: cs).length⟩) := by
  have hcd : c.isDigit = true := nonzero_digit_isDigit c hc
  have hall : ∀ x ∈ c :: cs, x.isDigit = true := by
    intro x hx
    rcases List.mem_cons.mp hx with rfl | hx
    · exact hcd
    · exact hcs x hx
  have htw : (cs ++ rest).takeWhile Char.isDigit = cs :=
    takeWhile_append_head _ _ _ hcs hrest
  have hm : matchNonzeroDigits s.peekRemainder = some (c :: cs) := by
    rw [hrem]
    unfold matchNonzeroDigits
    dsimp only
    rw [if_pos hc, htw]
  have hpre : (s.raw.drop s.currentPosition).take (c :: cs).length = c :: cs := by
    show (s.peekRemainder).take (c :: cs).length = c :: cs
    rw [hrem]
    show (c :: (cs ++ rest)).take (cs.length + 1) = c :: cs
    rw [List.take_succ_cons, List.take_left]
  have hnl : ∀ x ∈ c :: cs, ¬ x = '\n' := fun x hx => digit_ne_newline x (hall x hx)
  have hreg := Parser.regex_success matchNonzeroDigits s (c :: cs) hg hm hpre hnl
  have hj : jsParseInt (String.mk (c :: cs)) = some (natOfDigits (c :: cs) : Int) := by
    have hj0 := jsParseInt_eq [] (c :: cs) [] (Or.inl rfl) (by simp) hall
      (by intro x hx; simp at hx)
    rw [show ([] ++ (c :: cs) ++ [] : List Char) = c :: cs from by simp] at hj0
    rw [hj0]
    simp
  unfold Parser.unsinged_integer
  rw [Parser.map_success _ _ _ _ _ _ hg hreg]
  simp only [hj]

theorem matchNonzeroDigits_none (l : List Char)
    (h : ∀ x t, l = x :: t → ('1' ≤ x && x ≤ '9') = false) :
    matchNonzeroDigits l = none := by
  cases l with
  | nil => rfl
  | cons x t =>
    unfold matchNonzeroDigits
    dsimp only
    rw [h x t rfl]
    rfl

theorem Parser.unsinged_integer_reject (s : ParsingState)
    (hg : s.currentPosition ≤ s.raw.length)
    (hm : matchNonzeroDigits s.peekRemainder = none) :
    Parser.unsinged_integer.parse s =
      (.failure .EXPECTED_REGEX "Expected to match regex" (s.meta s.copy), s) := by
  have hreg := Parser.regex_fail matchNonzeroDigits s hg hm
  unfold Parser.unsinged_integer
  rw [Parser.map_fail _ _ _ _ _ _ _ hg hreg]

theorem Parser.digits_run (s : ParsingState) (c : Char) (cs rest : List Char)
    (hg : s.currentPosition ≤ s.raw.length)
    (hrem : s.peekRemainder = c :: (cs ++ rest))
    (hc : c.isDigit = true)
    (hcs : ∀ x ∈ cs, x.isDigit = true)
    (hrest : ∀ x, rest.head? = some x → x.isDigit = false) :
    Parser.digits.parse s =
      (.success ⟨s.currentPosition, s.currentPosition + (c :: cs).length, s.currentLine,
          s.currentLine, s.currentColumn, s.currentColumn + (c :: cs).length⟩
        (String.mk (c :: cs)),
       ⟨s.raw, s.currentPosition + (c :: cs).length, s.currentLine,
         s.currentColumn + (c :: cs).length⟩) := by
  have hall : ∀ x ∈ c :: cs, x.isDigit = true := by
    intro x hx
    rcases List.mem_cons.mp hx with rfl | hx
    · exact hc
    · exact hcs x hx
  have htw : (cs ++ rest).takeWhile Char.isDigit = cs :=
    takeWhile_append_head _ _ _ hcs hrest
  have hm : matchDigitRun s.peekRemainder = some (c :: cs) := by
    rw [hrem]
    unfold matchDigitRun
    dsimp only
    rw [if_pos hc, htw]
  have hpre : (s.raw.drop s.currentPosition).take (c :: cs).length = c :: cs := by
    show (s.peekRemainder).take (c :: cs).length = c :: cs
    rw [hrem]
    show (c :: (cs ++ rest)).take (cs.length + 1) = c :: cs
    rw [List.take_succ_cons, List.take_left]
  have hnl : ∀ x ∈ c :: cs, ¬ x = '\n' := fun x hx => digit_ne_newline x (hall x hx)
  exact Parser.regex_success matchDigitRun s (c :: cs) hg hm hpre hnl

theorem Parser.integer_run (s : ParsingState) (sgn : List Char) (c : Char)
    (cs rest : List Char)
    (hg : s.currentPosition ≤ s.raw.length)
    (hrem : s.peekRemainder = sgn ++ (c :: (cs ++ rest)))
    (hs : sgn = [] ∨ sgn = ['+'] ∨ sgn = ['-'])
    (hc : ('1' ≤ c && c ≤ '9') = true)
    (hcs : ∀ x ∈ cs, x.isDigit = true)
    (hrest : ∀ x, rest.head? = some x → x.isDigit = false) :
    Parser.integer.parse s =
      (.success ⟨s.currentPosition, s.currentPosition + sgn.length + (c :: cs).length,
          s.currentLine, s.currentLine, s.currentColumn,
          s.currentColumn + sgn.length + (c :: cs).length⟩
        (some ((if sgn = ['-'] then -1 else 1) * (natOfDigits (c :: cs) : Int))),
       ⟨s.raw, s.currentPosition + sgn.length + (c :: cs).length, s.currentLine,
         s.currentColumn + sgn.length + (c :: cs).length⟩) := by
  have hcd : c.isDigit = true := nonzero_digit_isDigit c hc
  rcases hs with rfl | rfl | rfl
  · rw [List.nil_append] at hrem
    have hsign := Parser.signOpt_nosign s hg
      (by
        intro x hx
        rw [s.head_of_remainder _ _ hrem] at hx
        have hxc : x = c := (Option.some.inj hx).symm
        rw [hxc]
        exact ⟨digit_ne_plus c hcd, digit_ne_minus c hcd, digit_ne_newline c hcd⟩)
    have hun := Parser.unsinged_integer_run s c cs rest hg hrem hc hcs hrest
    have hseq := Parser.seq2_success _ _ s _ _ s _ _ _ hg hsign hun
    have hjoin : jsParseInt (joinIntParts (none, some (natOfDigits (c :: cs) : Int))) =
        some (natOfDigits (c :: cs) : Int) := by
      show jsParseInt ("" ++ jsNumToString (some (natOfDigits (c :: cs) : Int))) = _
      rw [empty_append_str, jsNumToString_ofNat]
      have harg : Nat.repr (natOfDigits (c :: cs)) =
          String.mk ((Nat.repr (natOfDigits (c :: cs))).data ++ []) := by
        apply string_eq_of_data
        simp
      rw [harg, jsParseInt_repr_append _ [] (by intro x hx; simp at hx)]
    unfold Parser.integer
    rw [Parser.map_success _ _ _ _ _ _ hg hseq]
    simp only [hjoin]
    simp [ParsingState.meta, ParsingState.copy]
  · have hhead : s.raw[s.currentPosition]? = some '+' := by
      rw [show (['+'] ++ (c :: (cs ++ rest)) : List Char) = '+' :: (c :: (cs ++ rest))
        from rfl] at hrem
      exact s.head_of_remainder _ _ hrem
    have hsign := Parser.signOpt_plus s hg hhead
    have hrem2 : (⟨s.raw, s.currentPosition + 1, s.currentLine, s.currentColumn + 1⟩ :
        ParsingState).peekRemainder = c :: (cs ++ rest) := by
      rw [show (['+'] ++ (c :: (cs ++ rest)) : List Char) = '+' :: (c :: (cs ++ rest))
        from rfl] at hrem
      exact s.remainder_advance _ _ hrem _ _
    have hg2 : s.currentPosition + 1 ≤ s.raw.length := by
      have hlen := s.remainder_length _ hrem
      simp at hlen
      omega
    have hun := Parser.unsinged_integer_run _ c cs rest (by simpa using hg2) hrem2 hc hcs hrest
    have hseq := Parser.seq2_success _ _ s _ _ _ _ _ _ hg hsign hun
    have hjoin : jsParseInt (joinIntParts (some "+", some (natOfDigits (c :: cs) : Int))) =
        some (natOfDigits (c :: cs) : Int) := by
      show jsParseInt ("+" ++ jsNumToString (some (natOfDigits (c :: cs) : Int))) = _
      rw [jsNumToString_ofNat]
      have harg : ("+" ++ Nat.repr (natOfDigits (c :: cs)) : String) =
          String.mk (['+'] ++ (Nat.repr (natOfDigits (c :: cs))).data ++ []) := by
        apply string_eq_of_data
        simp
      rw [harg, jsParseInt_eq ['+'] _ [] (Or.inr (Or.inl rfl)) (repr_digits _).1
        (repr_digits _).2.1 (by intro x hx; simp at hx)]
      simp [(repr_digits (natOfDigits (c :: cs))).2.2]
    unfold Parser.integer
    rw [Parser.map_success _ _ _ _ _ _ hg hseq]
    simp only [hjoin]
    simp [ParsingState.meta, ParsingState.copy]
  · have hhead : s.raw[s.currentPosition]? = some '-' := by
      rw [show (['-'] ++ (c :: (cs ++ rest)) : List Char) = '-' :: (c :: (cs ++ rest))
        from rfl] at hrem
      exact s.head_of_remainder _ _ hrem
    have hsign := Parser.signOpt_minus s hg hhead
    have hrem2 : (⟨s.raw, s.currentPosition + 1, s.currentLine, s.currentColumn + 1⟩ :
        ParsingState).peekRemainder = c :: (cs ++ rest) := by
      rw [show (['-'] ++ (c :: (cs ++ rest)) : List Char) = '-' :: (c :: (cs ++ rest))
        from rfl] at hrem
      exact s.remainder_advance _ _ hrem _ _
    have hg2 : s.currentPosition + 1 ≤ s.raw.length := by
      have hlen := s.remainder_length _ hrem
      simp at hlen
      omega
    have hun := Parser.unsinged_integer_run _ c cs rest (by simpa using hg2) hrem2 hc hcs hrest
    have hseq := Parser.seq2_success _ _ s _ _ _ _ _ _ hg hsign hun
    have hjoin : jsParseInt (joinIntParts (some "-", some (natOfDigits (c :: cs) : Int))) =
        some (-(natOfDigits (c :: cs) : Int)) := by
      show jsParseInt ("-" ++ jsNumToString (some (natOfDigits (c :: cs) : Int))) = _
      rw [jsNumToString_ofNat]
      have harg : ("-" ++ Nat.repr (natOfDigits (c :: cs)) : String) =
          String.mk ('-' :: ((Nat.repr (natOfDigits (c :: cs))).data ++ [])) := by
        apply string_eq_of_data
        simp
      rw [harg, jsParseInt_neg_repr_append _ [] (by intro x hx; simp at hx)]
    unfold Parser.integer
    rw [Parser.map_success _ _ _ _ _ _ hg hseq]
    simp only [hjoin]
    simp [ParsingState.meta, ParsingState.copy]

theorem ParsingState.remainder_at (s : ParsingState) (pre post : List Char)
    (h : s.peekRemainder = pre ++ post) (line col : Nat) :
    (⟨s.raw, s.currentPosition + pre.length, line, col⟩ : ParsingState).peekRemainder =
      post := by
  show s.raw.drop (s.currentPosition + pre.length) = post
  rw [← List.drop_drop]
  rw [show s.raw.drop s.currentPosition = pre ++ post from h]
  exact List.drop_left pre post

theorem Parser.float_run (s : ParsingState) (sgn : List Char) (c : Char)
    (cs : List Char) (fc : Char) (fs : List Char)
    (hg : s.currentPosition ≤ s.raw.length)
    (hrem : s.peekRemainder = sgn ++ (c :: cs) ++ '.' :: (fc :: fs))
    (hs : sgn = [] ∨ sgn = ['+'] ∨ sgn = ['-'])
    (hc : ('1' ≤ c && c ≤ '9') = true)
    (hcs : ∀ x ∈ cs, x.isDigit = true)
    (hfc : fc.isDigit = true)
    (hfs : ∀ x ∈ fs, x.isDigit = true) :
    Parser.float.parse s =
      (.success ⟨s.currentPosition,
          s.currentPosition + sgn.length + (c :: cs).length + 1 + (fc :: fs).length,
          s.currentLine, s.currentLine, s.currentColumn,
          s.currentColumn + sgn.length + (c :: cs).length + 1 + (fc :: fs).length⟩
        (some ((if sgn = ['-'] then -1 else 1) * (natOfDigits (c :: cs) : Int))),
       ⟨s.raw,
        s.currentPosition + sgn.length + (c :: cs).length + 1 + (fc :: fs).length,
        s.currentLine,
        s.currentColumn + sgn.length + (c :: cs).length + 1 + (fc :: fs).length⟩) := by
  have hrem1 : s.peekRemainder = sgn ++ (c :: (cs ++ '.' :: (fc :: fs))) := by
    rw [hrem]
    simp
  have hint := Parser.integer_run s sgn c cs ('.' :: (fc :: fs)) hg hrem1 hs hc hcs
    (by
      intro x hx
      have hx2 : x = '.' := (Option.some.inj hx).symm
      rw [hx2]
      decide)
  have hlen0 := s.remainder_length _ hrem
  have hlensum : s.raw.length - s.currentPosition =
      sgn.length + ((c :: cs).length + (1 + (fc :: fs).length)) := by
    rw [hlen0]
    simp only [List.length_append, List.length_cons]
    omega
  have hrem2 : (⟨s.raw, s.currentPosition + (sgn.length + (c :: cs).length),
      s.currentLine, s.currentColumn + sgn.length + (c :: cs).length⟩ :
      ParsingState).peekRemainder = '.' :: (fc :: fs) := by
    have hx := s.remainder_at (sgn ++ (c :: cs)) ('.' :: (fc :: fs))
      (by rw [hrem]) s.currentLine
      (s.currentColumn + sgn.length + (c :: cs).length)
    rw [List.length_append] at hx
    exact hx
  set p2 : Nat := s.currentPosition + sgn.length + (c :: cs).length with hp2
  have hp2e : s.currentPosition + (sgn.length + (c :: cs).length) = p2 := by
    rw [hp2]
    omega
  rw [hp2e] at hrem2
  set s2 : ParsingState := ⟨s.raw, p2, s.currentLine,
    s.currentColumn + sgn.length + (c :: cs).length⟩ with hs2
  have hg2 : s2.currentPosition ≤ s2.raw.length := by
    show p2 ≤ s.raw.length
    rw [hp2]
    omega
  have hdot := Parser.utf8_success "." s2 '.' hg2
    (s2.head_of_remainder _ _ hrem2) (by decide) (by decide)
  have hrem3 : (⟨s2.raw, s2.currentPosition + 1, s2.currentLine,
      s2.currentColumn + 1⟩ : ParsingState).peekRemainder = fc :: fs :=
    s2.remainder_advance _ _ hrem2 _ _
  set s3 : ParsingState := ⟨s2.raw, s2.currentPosition + 1, s2.currentLine,
    s2.currentColumn + 1⟩ with hs3
  have hg3 : s3.currentPosition ≤ s3.raw.length := by
    show s2.currentPosition + 1 ≤ s.raw.length
    show p2 + 1 ≤ s.raw.length
    rw [hp2]
    omega
  have hrem3b : s3.peekRemainder = fc :: (fs ++ []) := by
    rw [hrem3]
    simp
  have hdig := Parser.digits_run s3 fc fs [] hg3 hrem3b hfc hfs
    (by intro x hx; simp at hx)
  have hopt := Parser.optional_of_success _ _ _ _ _ hg3 hdig
  have hseq := Parser.seq3_success Parser.integer (Parser.utf8 ".")
    (Parser.digits.optional) s _ _ _ _ _ _ _ _ _ hg hint
    (by
      show (Parser.utf8 ".").parse s2 = _
      exact hdot)
    (by
      show Parser.digits.optional.parse s3 = _
      exact hopt)
  have hb1 := Parser.map_success Parser.floatBranch1
    (Sum.inl : (Option Int × String × Option String) →
      Sum (Option Int × String × Option String)
        (Option (Option Int) × String × String)) s _ _ _ hg hseq
  have hor := Parser.or2_first (Parser.floatBranch1.map Sum.inl)
    (Parser.floatBranch2.map Sum.inr) s _ _ _ hg hb1
  have hval : jsParseInt (joinFloatParts (Sum.inl
      (some ((if sgn = ['-'] then -1 else 1) * (natOfDigits (c :: cs) : Int)), ".",
       some (String.mk (fc :: fs))))) =
      some ((if sgn = ['-'] then -1 else 1) * (natOfDigits (c :: cs) : Int)) := by
    show jsParseInt (jsNumToString (some ((if sgn = ['-'] then -1 else 1) *
      (natOfDigits (c :: cs) : Int))) ++ "." ++ String.mk (fc :: fs)) = _
    by_cases hneg : sgn = ['-']
    · rw [if_pos hneg]
      obtain ⟨k, hk⟩ : ∃ k, natOfDigits (c :: cs) = k + 1 :=
        ⟨natOfDigits (c :: cs) - 1, by
          have := natOfDigits_pos c cs hc
          omega⟩
      rw [hk]
      rw [show (-1 * ((k + 1 : Nat) : Int)) = -((k + 1 : Nat) : Int) by ring]
      rw [jsNumToString_negSucc k]
      have harg : ("-" ++ Nat.repr (k + 1) ++ "." ++ String.mk (fc :: fs) : String) =
          String.mk ('-' :: ((Nat.repr (k + 1)).data ++ '.' :: (fc :: fs))) := by
        apply string_eq_of_data
        simp
      rw [harg, jsParseInt_neg_repr_append _ _ (by
        intro x hx
        have hx2 : x = '.' := (Option.some.inj hx).symm
        rw [hx2]
        decide)]
    · rw [if_neg hneg]
      rw [show ((1 : Int) * (natOfDigits (c :: cs) : Int)) = (natOfDigits (c :: cs) : Int)
        by ring]
      rw [jsNumToString_ofNat]
      have harg : (Nat.repr (natOfDigits (c :: cs)) ++ "." ++ String.mk (fc :: fs) :
          String) =
          String.mk ((Nat.repr (natOfDigits (c :: cs))).data ++ '.' :: (fc :: fs)) := by
        apply string_eq_of_data
        simp
      rw [harg, jsParseInt_repr_append _ _ (by
        intro x hx
        have hx2 : x = '.' := (Option.some.inj hx).symm
        rw [hx2]
        decide)]
  unfold Parser.float
  rw [Parser.map_success _ _ _ _ _ _ hg hor]
  simp only [hval]
  simp only [ParsingState.meta, ParsingState.copy]

/-- Claim C2: sequence runs its sub-parsers in order against the same cursor;
on the first sub-parser failure the whole combinator returns that failure and
the cursor is restored to its entry position (position, line and column); on
success it yields the ordered list of the sub-results' values; in particular
sequence(utf8 "a", utf8 "b") on "ac" fails and leaves the cursor at 0. -/
theorem claim_C2_sequence_all_or_nothing :
    (∀ (α : Type) (ps : List (Parser α)) (s : ParsingState),
      ((Parser.sequence ps).parse s).1.isFailure = true →
      ((Parser.sequence ps).parse s).2.currentPosition = s.currentPosition ∧
      ((Parser.sequence ps).parse s).2.currentLine = s.currentLine ∧
      ((Parser.sequence ps).parse s).2.currentColumn = s.currentColumn) ∧
    (∀ (α : Type) (p q : Parser α) (s : ParsingState) (m1 : Meta) (v1 : α)
      (s1 : ParsingState) (m2 : Meta) (v2 : α) (s2 : ParsingState),
      s.currentPosition ≤ s.raw.length →
      p.parse s = (.success m1 v1, s1) →
      q.parse s1 = (.success m2 v2, s2) →
      (Parser.sequence [p, q]).parse s = (.success (s2.meta s.copy) [v1, v2], s2)) ∧
    ((Parser.sequence [Parser.utf8 "a", Parser.utf8 "b"]).parse
        (ParsingState.ofString "ac") =
      (.failure .EXPECTED_LITERAL "Expected character: b" ⟨1, 2, 1, 1, 2, 3⟩,
       ParsingState.ofString "ac")) := by
  refine ⟨?_, ?_, by decide⟩
  · intro α ps s h
    unfold Parser.parse at h ⊢
    by_cases hg : s.raw.length < s.currentPosition
    · rw [if_pos hg] at h ⊢
      exact ⟨rfl, rfl, rfl⟩
    · rw [if_neg hg] at h ⊢
      simp only [Parser.sequence, Parser.run_mk] at h ⊢
      exact Parser.seqGo_fail s.copy ps s [] h
  · intro α p q s m1 v1 s1 m2 v2 s2 hg h1 h2
    rw [Parser.parse_of_le _ _ hg]
    simp only [Parser.sequence, Parser.run_mk, Parser.seqGo, h1, h2]
    rfl

/-- Witness for C2: the success side at a concrete input, via the claim
theorem: sequence(utf8 "a", utf8 "b") on "ab" yields ["a", "b"]. -/
theorem claim_C2_witness :
    (Parser.sequence [Parser.utf8 "a", Parser.utf8 "b"]).parse
        (ParsingState.ofString "ab") =
      (.success ⟨0, 2, 1, 1, 1, 3⟩ ["a", "b"], ⟨"ab".data, 2, 1, 3⟩) :=
  claim_C2_sequence_all_or_nothing.2.1 String (Parser.utf8 "a") (Parser.utf8 "b")
    (ParsingState.ofString "ab") ⟨0, 1, 1, 1, 1, 2⟩ "a" ⟨"ab".data, 1, 1, 2⟩
    ⟨1, 2, 1, 1, 2, 3⟩ "b" ⟨"ab".data, 2, 1, 3⟩
    (by decide) (by decide) (by decide)

/-- Claim C3 counterexample: nextChars(2) on the one-character input "a"
returns "aundefined" — the truncated remainder with the text "undefined"
appended for the missing read — not the bare remainder "a", and the position
advances to 2 (past the end of input). -/
theorem claim_C3_counterexample :
    ((ParsingState.ofString "a").nextChars 2).1 = "aundefined" ∧
    ¬ ((ParsingState.ofString "a").nextChars 2).1 = "a" ∧
    ((ParsingState.ofString "a").nextChars 2).2.currentPosition = 2 := by
  decide

/-- Claim C3 (amended): nextChars(n) performs exactly n nextChar reads,
advancing the position by exactly n (possibly past end of input), and returns
their concatenation where each read past end of input contributes the text
"undefined": when fewer than n characters remain it returns the truncated
remainder followed by one "undefined" per missing character. -/
theorem claim_C3_amended_nextChars (s : ParsingState) (n : Nat) :
    (s.nextChars n).1 =
      String.mk ((s.raw.drop s.currentPosition).take n) ++
        undefinedRepeat (n - (s.raw.length - s.currentPosition)) ∧
    (s.nextChars n).2.currentPosition = s.currentPosition + n ∧
    (s.nextChars n).2.raw = s.raw :=
  ⟨ParsingState.nextChars_str n s, ParsingState.nextChars_pos n s,
   ParsingState.nextChars_raw n s⟩

/-- Claim C4: or tries alternatives in order and returns the first success;
when every alternative fails it fails with ALL_PARSERS_FAILED (the individual
sub-errors are discarded in favour of that fixed code and message) and the
cursor ends at its entry position/line/column; or(literal "a", literal "ab")
on "ab" yields "a". -/
theorem claim_C4_or_first_success :
    (∀ (α : Type) (ps : List (Parser α)) (s : ParsingState),
      s.currentPosition ≤ s.raw.length →
      ((Parser.or ps).parse s).1.isFailure = true →
      ((Parser.or ps).parse s).1.errCode = some .ALL_PARSERS_FAILED ∧
      ((Parser.or ps).parse s).2.currentPosition = s.currentPosition ∧
      ((Parser.or ps).parse s).2.currentLine = s.currentLine ∧
      ((Parser.or ps).parse s).2.currentColumn = s.currentColumn) ∧
    (∀ (α : Type) (p : Parser α) (ps : List (Parser α)) (s : ParsingState)
      (m : Meta) (d : α) (s1 : ParsingState),
      s.currentPosition ≤ s.raw.length →
      p.parse s = (.success m d, s1) →
      (Parser.or (p :: ps)).parse s = (.success m d, s1)) ∧
    ((Parser.or [Parser.literal "a" false, Parser.literal "ab" false]).parse
        (ParsingState.ofString "ab") =
      (.success ⟨0, 1, 1, 1, 1, 2⟩ "a", ⟨"ab".data, 1, 1, 2⟩)) := by
  refine ⟨?_, ?_, by decide⟩
  · intro α ps s hg h
    rw [Parser.parse_of_le _ _ hg] at h ⊢
    simp only [Parser.or, Parser.run_mk] at h ⊢
    exact Parser.orGo_fail s.copy ps s h
  · intro α p ps s m d s1 hg h
    rw [Parser.parse_of_le _ _ hg]
    simp only [Parser.or, Parser.run_mk, Parser.orGo, h]

/-- Witness for C4: the all-fail side at a concrete input, via the claim
theorem: or(utf8 "x", utf8 "y") on "ab" fails with ALL_PARSERS_FAILED and the
cursor stays at 0. -/
theorem claim_C4_witness :
    ((Parser.or [Parser.utf8 "x", Parser.utf8 "y"]).parse
        (ParsingState.ofString "ab")).1.errCode = some .ALL_PARSERS_FAILED ∧
    ((Parser.or [Parser.utf8 "x", Parser.utf8 "y"]).parse
        (ParsingState.ofString "ab")).2.currentPosition = 0 := by
  have hh := claim_C4_or_first_success.1 String [Parser.utf8 "x", Parser.utf8 "y"]
    (ParsingState.ofString "ab") (by decide) (by decide)
  exact ⟨hh.1, hh.2.1⟩

/-- Claim C8: a failure from literal, utf8 or regex leaves the cursor (raw,
position, line, column) exactly as it was before the attempt, while the
failure's span starts at the origin (entry position/line/column) and ends at
the pre-rollback position: entry + length(expected) for literal, entry + 1
for utf8, entry itself for a regex mismatch. -/
theorem claim_C8_failure_rollback :
    (∀ (exp : String) (ci : Bool) (s : ParsingState),
      ((Parser.literal exp ci).parse s).1.isFailure = true →
      ((Parser.literal exp ci).parse s).2 = s ∧
      ((Parser.literal exp ci).parse s).1.metaOf.start = s.currentPosition ∧
      ((Parser.literal exp ci).parse s).1.metaOf.startLine = s.currentLine ∧
      ((Parser.literal exp ci).parse s).1.metaOf.startColumn = s.currentColumn ∧
      (s.currentPosition ≤ s.raw.length →
        ((Parser.literal exp ci).parse s).1.metaOf.stop =
          s.currentPosition + exp.length)) ∧
    (∀ (exp : String) (s : ParsingState),
      ((Parser.utf8 exp).parse s).1.isFailure = true →
      ((Parser.utf8 exp).parse s).2 = s ∧
      ((Parser.utf8 exp).parse s).1.metaOf.start = s.currentPosition ∧
      ((Parser.utf8 exp).parse s).1.metaOf.startLine = s.currentLine ∧
      ((Parser.utf8 exp).parse s).1.metaOf.startColumn = s.currentColumn ∧
      (s.currentPosition ≤ s.raw.length →
        ((Parser.utf8 exp).parse s).1.metaOf.stop = s.currentPosition + 1)) ∧
    (∀ (matcher : List Char → Option (List Char)) (s : ParsingState),
      ((Parser.regex matcher).parse s).1.isFailure = true →
      ((Parser.regex matcher).parse s).2 = s ∧
      ((Parser.regex matcher).parse s).1.metaOf.start = s.currentPosition ∧
      ((Parser.regex matcher).parse s).1.metaOf.startLine = s.currentLine ∧
      ((Parser.regex matcher).parse s).1.metaOf.startColumn = s.currentColumn ∧
      (matcher s.peekRemainder = none →
        ((Parser.regex matcher).parse s).1.metaOf.stop = s.currentPosition)) :=
  ⟨fun exp ci s h => Parser.literal_fail_parts exp ci s h,
   fun exp s h => Parser.utf8_fail_parts exp s h,
   fun matcher s h => Parser.regex_fail_parts matcher s h⟩

/-- Witness for C8: literal("hello") parsed against "world" fails and the
cursor stays exactly at its entry state, via the claim theorem. -/
theorem claim_C8_witness :
    ((Parser.literal "hello" false).parse (ParsingState.ofString "world")).2 =
      ParsingState.ofString "world" ∧
    ((Parser.literal "hello" false).parse
        (ParsingState.ofString "world")).1.metaOf.start = 0 :=
  ⟨(claim_C8_failure_rollback.1 "hello" false (ParsingState.ofString "world")
      (by decide)).1,
   (claim_C8_failure_rollback.1 "hello" false (ParsingState.ofString "world")
      (by decide)).2.1⟩

/-- Claim C10: when sepBy fails because a delimiter matched but the item after
it did not, the cursor is not restored to the entry position: it is rolled
back only to the loop transaction's origin, the state just after the first
parsed item. -/
theorem claim_C10_sepBy_partial_rollback :
    ∀ (α β : Type) (item : Parser α) (delim : Parser β) (s : ParsingState)
      (fuel : Nat) (m1 : Meta) (v1 : α) (s1 : ParsingState) (r : Result (List α))
      (sF : ParsingState),
    s.currentPosition ≤ s.raw.length →
    item.parse s = (.success m1 v1, s1) →
    Parser.sepByParse item delim fuel s = some (r, sF) →
    r.isFailure = true →
    sF.currentPosition = s1.currentPosition ∧
    sF.currentLine = s1.currentLine ∧
    sF.currentColumn = s1.currentColumn := by
  intro α β item delim s fuel m1 v1 s1 r sF hg h1 hrun hf
  rw [Parser.sepByParse_of_le _ _ _ _ hg] at hrun
  unfold Parser.sepByRun at hrun
  rw [h1] at hrun
  exact Parser.sepByGo_fail item delim s1.copy fuel s1 [v1] r sF hrun hf

/-- Witness for C10: sepBy(utf8 "a", utf8 ",") on "a,b" fails and the cursor
ends at position 1, right after the first item, not at 0. -/
theorem claim_C10_witness :
    ∃ r : Result (List String) × ParsingState,
      Parser.sepByParse (Parser.utf8 "a") (Parser.utf8 ",") 5
        (ParsingState.ofString "a,b") = some r ∧
      r.1.isFailure = true ∧ r.2.currentPosition = 1 := by
  refine ⟨(.failure .EXPECTED_LITERAL "Expected character: a" ⟨2, 3, 1, 1, 3, 4⟩,
    ⟨"a,b".data, 1, 1, 2⟩), by decide, rfl, ?_⟩
  have hh := claim_C10_sepBy_partial_rollback String String (Parser.utf8 "a")
    (Parser.utf8 ",") (ParsingState.ofString "a,b") 5 ⟨0, 1, 1, 1, 1, 2⟩ "a"
    ⟨"a,b".data, 1, 1, 2⟩
    (.failure .EXPECTED_LITERAL "Expected character: a" ⟨2, 3, 1, 1, 3, 4⟩)
    ⟨"a,b".data, 1, 1, 2⟩ (by decide) (by decide) (by decide) (by decide)
  exact hh.1

/-- Claim C1 counterexample: many(optional(utf8 "a")) on the input "a"
diverges.  The first run consumes "a"; every later run is a zero-width
success at position 1, and the loop's dirtiness check compares against the
loop entry position 0, so the while-loop never exits for any amount of
fuel. -/
theorem claim_C1_counterexample :
    manyDivergesAt (Parser.optional (Parser.utf8 "a")) (ParsingState.ofString "a") := by
  intro fuel
  cases fuel with
  | zero => rfl
  | succ fuel =>
    rw [Parser.manyParse_of_le _ _ _ (by decide)]
    have hp0 : (Parser.optional (Parser.utf8 "a")).parse (ParsingState.ofString "a") =
        (.success ⟨0, 1, 1, 1, 1, 2⟩ (some "a"), ⟨"a".data, 1, 1, 2⟩) := by decide
    have hp1 : (Parser.optional (Parser.utf8 "a")).parse
        (⟨"a".data, 1, 1, 2⟩ : ParsingState) =
        (.success ⟨1, 1, 1, 1, 2, 2⟩ (none : Option String),
          (⟨"a".data, 1, 1, 2⟩ : ParsingState)) := by decide
    have hstep : Parser.manyGo (Parser.optional (Parser.utf8 "a"))
        (ParsingState.ofString "a").copy (fuel + 1) (ParsingState.ofString "a") [] =
        Parser.manyGo (Parser.optional (Parser.utf8 "a"))
          (ParsingState.ofString "a").copy fuel (⟨"a".data, 1, 1, 2⟩ : ParsingState)
          ([] ++ [some "a"]) :=
      Parser.manyGo_step _ _ fuel _ [] ⟨0, 1, 1, 1, 1, 2⟩ (some "a")
        (⟨"a".data, 1, 1, 2⟩ : ParsingState) hp0 (by decide)
    rw [hstep]
    exact Parser.manyGo_stuck _ _ _ ⟨1, 1, 1, 1, 2, 2⟩ none hp1 (by decide) fuel _

/-- Claim C1 (amended): many collects successes and stops as soon as a run
fails or a run succeeds with the cursor back at many's entry position; so a
failing or stationary first run yields an empty-sequence success (in
particular many(p).parse("") succeeds with the empty sequence whenever p
fails or does not move on the empty cursor); but a run that succeeds without
advancing after earlier runs have advanced never resets the entry-position
dirtiness check, so the loop re-runs p at the same cursor forever: such
zero-width successes cause an infinite loop. -/
theorem claim_C1_many_termination :
    (∀ (α : Type) (p : Parser α) (s : ParsingState) (fuel : Nat)
      (c : ParserErrorCode) (msg : String) (mt : Meta) (s1 : ParsingState),
      s.currentPosition ≤ s.raw.length →
      p.parse s = (.failure c msg mt, s1) →
      Parser.manyParse p (fuel + 1) s = some (.success (s1.meta s.copy) [], s1)) ∧
    (∀ (α : Type) (p : Parser α) (s : ParsingState) (fuel : Nat) (m : Meta)
      (d : α) (s1 : ParsingState),
      s.currentPosition ≤ s.raw.length →
      p.parse s = (.success m d, s1) →
      s1.currentPosition = s.currentPosition →
      Parser.manyParse p (fuel + 1) s = some (.success (s1.meta s.copy) [], s1)) ∧
    (∀ (α : Type) (p : Parser α) (s : ParsingState) (m : Meta) (d : α)
      (s1 : ParsingState) (m1 : Meta) (d1 : α),
      s.currentPosition ≤ s.raw.length →
      p.parse s = (.success m d, s1) →
      ¬ s1.currentPosition = s.currentPosition →
      p.parse s1 = (.success m1 d1, s1) →
      manyDivergesAt p s) := by
  refine ⟨?_, ?_, ?_⟩
  · intro α p s fuel c msg mt s1 hg h
    rw [Parser.manyParse_of_le _ _ _ hg]
    simp [Parser.manyGo, h, trxSuccess]
  · intro α p s fuel m d s1 hg h hpos
    rw [Parser.manyParse_of_le _ _ _ hg]
    have hpos2 : s1.currentPosition = s.copy.currentPosition := hpos
    simp [Parser.manyGo, h, hpos2, trxSuccess]
  · intro α p s m d s1 m1 d1 hg h hne h1
    intro fuel
    cases fuel with
    | zero =>
      rw [Parser.manyParse_of_le _ _ _ hg]
      rfl
    | succ fuel =>
      rw [Parser.manyParse_of_le _ _ _ hg]
      have hne2 : ¬ s1.currentPosition = s.copy.currentPosition := hne
      have hstep : Parser.manyGo p s.copy (fuel + 1) s [] =
          Parser.manyGo p s.copy fuel s1 ([] ++ [d]) :=
        Parser.manyGo_step p s.copy fuel s [] m d s1 h hne2
      rw [hstep]
      exact Parser.manyGo_stuck p s.copy s1 m1 d1 h1 hne2 fuel ([] ++ [d])

/-- Witness for C1's amended theorem: many(utf8 "a").parse("") succeeds with
the empty sequence, obtained from the failing-run conjunct of the claim
theorem. -/
theorem claim_C1_witness :
    Parser.manyParse (Parser.utf8 "a") 1 (ParsingState.ofString "") =
      some (.success ⟨0, 0, 1, 1, 1, 1⟩ [], ParsingState.ofString "") :=
  claim_C1_many_termination.1 String (Parser.utf8 "a") (ParsingState.ofString "") 0
    .UNEXPECTED_EOF "Unexpected EOF" ⟨0, 1, 1, 1, 1, 2⟩ (ParsingState.ofString "")
    (by decide) (by decide)

/-- Claim C5: sepBy succeeds with an empty sequence when the first item
fails; otherwise it loops, stopping with the items collected so far when the
delimiter fails, and failing the whole combinator when a delimiter succeeds
but the following item fails; in particular sepBy(number, literal ",") on
"10," fails. -/
theorem claim_C5_sepBy_contract :
    (∀ (α β : Type) (item : Parser α) (delim : Parser β) (s : ParsingState)
      (fuel : Nat) (c : ParserErrorCode) (msg : String) (mt : Meta)
      (s1 : ParsingState),
      s.currentPosition ≤ s.raw.length →
      item.parse s = (.failure c msg mt, s1) →
      Parser.sepByParse item delim fuel s = some (.success mt [], s1)) ∧
    (∀ (α β : Type) (item : Parser α) (delim : Parser β) (s : ParsingState)
      (fuel : Nat) (m1 : Meta) (v1 : α) (s1 : ParsingState)
      (c : ParserErrorCode) (msg : String) (mt : Meta) (s2 : ParsingState),
      s.currentPosition ≤ s.raw.length →
      item.parse s = (.success m1 v1, s1) →
      delim.parse s1 = (.failure c msg mt, s2) →
      Parser.sepByParse item delim (fuel + 1) s =
        some (.success (s2.meta s1.copy) [v1], s2)) ∧
    (∀ (α β : Type) (item : Parser α) (delim : Parser β) (s : ParsingState)
      (fuel : Nat) (m1 : Meta) (v1 : α) (s1 : ParsingState) (m2 : Meta) (v2 : β)
      (s2 : ParsingState) (c : ParserErrorCode) (msg : String) (mt : Meta)
      (s3 : ParsingState),
      s.currentPosition ≤ s.raw.length →
      item.parse s = (.success m1 v1, s1) →
      delim.parse s1 = (.success m2 v2, s2) →
      item.parse s2 = (.failure c msg mt, s3) →
      Parser.sepByParse item delim (fuel + 1) s =
        some (.failure c msg mt, s3.rollback s1.copy)) ∧
    (Parser.sepByParse Parser.number (Parser.literal "," false) 5
        (ParsingState.ofString "10,") =
      some (.failure .ALL_PARSERS_FAILED "All parsers failed" ⟨3, 3, 1, 1, 4, 4⟩,
        ⟨"10,".data, 2, 1, 3⟩)) := by
  refine ⟨?_, ?_, ?_, by decide⟩
  · intro α β item delim s fuel c msg mt s1 hg h
    rw [Parser.sepByParse_of_le _ _ _ _ hg]
    unfold Parser.sepByRun
    rw [h]
  · intro α β item delim s fuel m1 v1 s1 c msg mt s2 hg h1 hd
    rw [Parser.sepByParse_of_le _ _ _ _ hg]
    unfold Parser.sepByRun
    rw [h1]
    simp [Parser.sepByGo, hd, trxSuccess]
  · intro α β item delim s fuel m1 v1 s1 m2 v2 s2 c msg mt s3 hg h1 hd h2
    rw [Parser.sepByParse_of_le _ _ _ _ hg]
    unfold Parser.sepByRun
    rw [h1]
    simp [Parser.sepByGo, hd, h2]

/-- Witness for C5: the lenient first-item conjunct at a concrete input:
sepBy(utf8 "a", utf8 ",") on "b" succeeds with the empty sequence. -/
theorem claim_C5_witness :
    Parser.sepByParse (Parser.utf8 "a") (Parser.utf8 ",") 4
      (ParsingState.ofString "b") =
      some (.success ⟨0, 1, 1, 1, 1, 2⟩ [], ParsingState.ofString "b") :=
  claim_C5_sepBy_contract.1 String String (Parser.utf8 "a") (Parser.utf8 ",")
    (ParsingState.ofString "b") 4 .EXPECTED_LITERAL "Expected character: a"
    ⟨0, 1, 1, 1, 1, 2⟩ (ParsingState.ofString "b") (by decide) (by decide)

/-- Claim C6 counterexample: the unsigned-integer parser rejects "0" and
"01" (its pattern requires a nonzero leading digit), so it does not accept
every non-empty digit sequence; the signed parser likewise rejects "0". -/
theorem claim_C6_counterexample :
    (Parser.unsinged_integer.parse (ParsingState.ofString "0")).1.isFailure = true ∧
    (Parser.unsinged_integer.parse (ParsingState.ofString "01")).1.isFailure = true ∧
    (Parser.integer.parse (ParsingState.ofString "0")).1.isFailure = true := by
  decide

/-- Claim C6 (amended): the unsigned-integer parser accepts exactly the digit
runs whose first digit is nonzero, succeeding with their numeric value (so
"0" and leading-zero sequences are rejected: any input whose first character
is not 1..9 fails with the cursor unmoved), and the signed-integer parser
accepts an optional leading '+' or '-' followed by such an unsigned integer,
yielding the signed numeric value. -/
theorem claim_C6_amended_integer_grammar :
    (∀ (s : ParsingState) (c : Char) (cs rest : List Char),
      s.currentPosition ≤ s.raw.length →
      s.peekRemainder = c :: (cs ++ rest) →
      ('1' ≤ c && c ≤ '9') = true →
      (∀ x ∈ cs, x.isDigit = true) →
      (∀ x, rest.head? = some x → x.isDigit = false) →
      Parser.unsinged_integer.parse s =
        (.success ⟨s.currentPosition, s.currentPosition + (c :: cs).length,
            s.currentLine, s.currentLine, s.currentColumn,
            s.currentColumn + (c :: cs).length⟩
          (some (natOfDigits (c :: cs) : Int)),
         ⟨s.raw, s.currentPosition + (c :: cs).length, s.currentLine,
           s.currentColumn + (c :: cs).length⟩)) ∧
    (∀ (s : ParsingState) (x : Char) (t : List Char),
      s.currentPosition ≤ s.raw.length →
      s.peekRemainder = x :: t →
      ('1' ≤ x && x ≤ '9') = false →
      (Parser.unsinged_integer.parse s).1.isFailure = true ∧
      (Parser.unsinged_integer.parse s).2 = s) ∧
    (∀ (s : ParsingState) (sgn : List Char) (c : Char) (cs rest : List Char),
      s.currentPosition ≤ s.raw.length →
      s.peekRemainder = sgn ++ (c :: (cs ++ rest)) →
      (sgn = [] ∨ sgn = ['+'] ∨ sgn = ['-']) →
      ('1' ≤ c && c ≤ '9') = true →
      (∀ x ∈ cs, x.isDigit = true) →
      (∀ x, rest.head? = some x → x.isDigit = false) →
      (Parser.integer.parse s).1.dataOf =
        some (some ((if sgn = ['-'] then -1 else 1) *
          (natOfDigits (c :: cs) : Int)))) := by
  refine ⟨?_, ?_, ?_⟩
  · intro s c cs rest hg hrem hc hcs hrest
    exact Parser.unsinged_integer_run s c cs rest hg hrem hc hcs hrest
  · intro s x t hg hrem hx
    have hm : matchNonzeroDigits s.peekRemainder = none := by
      rw [hrem]
      exact matchNonzeroDigits_none _ (by
        intro y u hy
        rw [(List.cons.inj hy).1] at hx
        exact hx)
    have hh := Parser.unsinged_integer_reject s hg hm
    rw [hh]
    exact ⟨rfl, rfl⟩
  · intro s sgn c cs rest hg hrem hs hc hcs hrest
    rw [Parser.integer_run s sgn c cs rest hg hrem hs hc hcs hrest]
    rfl

/-- Witness for C6's amended theorem: the unsigned parser on "42" succeeds
with the value 42, via the claim theorem's acceptance conjunct. -/
theorem claim_C6_witness :
    Parser.unsinged_integer.parse (ParsingState.ofString "42") =
      (.success ⟨0, 2, 1, 1, 1, 3⟩ (some 42), ⟨"42".data, 2, 1, 3⟩) :=
  claim_C6_amended_integer_grammar.1 (ParsingState.ofString "42") '4' ['2'] []
    (by decide) (by decide) (by decide) (by decide)
    (by intro x hx; simp at hx)

/-- Claim C7: on every input of the float grammar's shape — an optional sign,
a nonzero-leading integer part, a '.', and fraction digits — Parser.float
succeeds, and its numeric result is the concatenated matched text re-parsed
by parseInt, i.e. the signed integer part with the fraction truncated
away. -/
theorem claim_C7_float_truncates :
    ∀ (s : ParsingState) (sgn : List Char) (c : Char) (cs : List Char)
      (fc : Char) (fs : List Char),
    s.currentPosition ≤ s.raw.length →
    s.peekRemainder = sgn ++ (c :: cs) ++ '.' :: (fc :: fs) →
    (sgn = [] ∨ sgn = ['+'] ∨ sgn = ['-']) →
    ('1' ≤ c && c ≤ '9') = true →
    (∀ x ∈ cs, x.isDigit = true) →
    fc.isDigit = true →
    (∀ x ∈ fs, x.isDigit = true) →
    (Parser.float.parse s).1.isSuccess = true ∧
    (Parser.float.parse s).1.dataOf =
      some (some ((if sgn = ['-'] then -1 else 1) * (natOfDigits (c :: cs) : Int))) ∧
    (Parser.float.parse s).1.dataOf =
      some (jsParseInt (String.mk (sgn ++ (c :: cs) ++ '.' :: (fc :: fs)))) := by
  intro s sgn c cs fc fs hg hrem hs hc hcs hfc hfs
  have hrun := Parser.float_run s sgn c cs fc fs hg hrem hs hc hcs hfc hfs
  refine ⟨by rw [hrun]; rfl, by rw [hrun]; rfl, ?_⟩
  rw [hrun]
  have hj := jsParseInt_eq sgn (c :: cs) ('.' :: (fc :: fs)) hs (by simp)
    (by
      intro x hx
      rcases List.mem_cons.mp hx with rfl | hx
      · exact nonzero_digit_isDigit _ hc
      · exact hcs x hx)
    (by
      intro x hx
      have hx2 : x = '.' := (Option.some.inj hx).symm
      rw [hx2]
      decide)
  rw [hj]
  rfl

/-- Witness for C7: float on "3.5" succeeds with the numeric value 3 (the
fractional ".5" is truncated), via the claim theorem. -/
theorem claim_C7_witness :
    (Parser.float.parse (ParsingState.ofString "3.5")).1.dataOf = some (some 3) := by
  have hh := claim_C7_float_truncates (ParsingState.ofString "3.5") [] '3' [] '5' []
    (by decide) (by decide) (Or.inl rfl) (by decide) (by intro x hx; simp at hx)
    (by decide) (by intro x hx; simp at hx)
  rw [hh.2.1]
  decide

/-- Claim C9: skipUntilRecovery returns a base success unchanged; after a
base failure it tries the recovery parser at each position, advancing one
character at a time; where recovery succeeds, base is retried from that
point — its success is the overall result, its failure yields a null-valued
success whose span starts at the original start; and if end of input is
reached with recovery failing (and restoring the cursor) at every visited
position, the original base failure is returned unmodified. -/
theorem claim_C9_skip_until_recovery :
    (∀ (α β : Type) (base : Parser α) (rec : Parser β) (fuel : Nat)
      (s : ParsingState) (m : Meta) (d : α) (s1 : ParsingState),
      s.currentPosition ≤ s.raw.length →
      base.parse s = (.success m d, s1) →
      Parser.skipParse base rec fuel s = some (.success m (some d), s1)) ∧
    (∀ (α β : Type) (base : Parser α) (rec : Parser β) (fuel : Nat)
      (s : ParsingState) (c : ParserErrorCode) (msg : String) (mt : Meta)
      (s1 : ParsingState) (m2 : Meta) (d2 : β) (s2 : ParsingState) (m3 : Meta)
      (d3 : α) (s3 : ParsingState),
      s.currentPosition ≤ s.raw.length →
      base.parse s = (.failure c msg mt, s1) →
      s1.currentPosition < s1.raw.length →
      rec.parse s1 = (.success m2 d2, s2) →
      base.parse s2 = (.success m3 d3, s3) →
      Parser.skipParse base rec (fuel + 1) s = some (.success m3 (some d3), s3)) ∧
    (∀ (α β : Type) (base : Parser α) (rec : Parser β) (fuel : Nat)
      (s : ParsingState) (c : ParserErrorCode) (msg : String) (mt : Meta)
      (s1 : ParsingState) (m2 : Meta) (d2 : β) (s2 : ParsingState)
      (c4 : ParserErrorCode) (msg4 : String) (mt4 : Meta) (s3 : ParsingState),
      s.currentPosition ≤ s.raw.length →
      base.parse s = (.failure c msg mt, s1) →
      s1.currentPosition < s1.raw.length →
      rec.parse s1 = (.success m2 d2, s2) →
      base.parse s2 = (.failure c4 msg4 mt4, s3) →
      Parser.skipParse base rec (fuel + 1) s =
        some (.success (s3.meta s.copy) none, s3)) ∧
    (∀ (α β : Type) (base : Parser α) (rec : Parser β) (s : ParsingState)
      (c : ParserErrorCode) (msg : String) (mt : Meta) (s1 : ParsingState)
      (fuel : Nat),
      s.currentPosition ≤ s.raw.length →
      base.parse s = (.failure c msg mt, s1) →
      (∀ k, k ≤ s1.raw.length - s1.currentPosition →
        (rec.parse (s1.advanceBy k)).1.isFailure = true ∧
        (rec.parse (s1.advanceBy k)).2 = s1.advanceBy k) →
      s1.raw.length - s1.currentPosition < fuel →
      Parser.skipParse base rec fuel s =
        some (.failure c msg mt,
          s1.advanceBy (s1.raw.length - s1.currentPosition))) := by
  refine ⟨?_, ?_, ?_, ?_⟩
  · intro α β base rec fuel s m d s1 hg h
    rw [Parser.skipParse_of_le _ _ _ _ hg]
    simp [Parser.skipUntilRecovery, h]
  · intro α β base rec fuel s c msg mt s1 m2 d2 s2 m3 d3 s3 hg h hpos hrec hbase2
    rw [Parser.skipParse_of_le _ _ _ _ hg]
    simp [Parser.skipUntilRecovery, h, Parser.skipGo, hpos, hrec, hbase2]
  · intro α β base rec fuel s c msg mt s1 m2 d2 s2 c4 msg4 mt4 s3 hg h hpos hrec hbase2
    rw [Parser.skipParse_of_le _ _ _ _ hg]
    simp [Parser.skipUntilRecovery, h, Parser.skipGo, hpos, hrec, hbase2]
  · intro α β base rec s c msg mt s1 fuel hg h hrec hf
    rw [Parser.skipParse_of_le _ _ _ _ hg]
    unfold Parser.skipUntilRecovery
    rw [h]
    exact Parser.skipGo_stuck base rec s.copy (.failure c msg mt) fuel s1 hrec hf

/-- Witness for C9: the no-recovery conjunct at a concrete input: base
literal("z") fails on "ab", recovery utf8(";") never matches, and the
original failure is returned after scanning to end of input. -/
theorem claim_C9_witness :
    Parser.skipParse (Parser.literal "z" false) (Parser.utf8 ";") 3
      (ParsingState.ofString "ab") =
      some (.failure .EXPECTED_LITERAL "Expected literal: z" ⟨0, 1, 1, 1, 1, 2⟩,
        ⟨"ab".data, 2, 1, 3⟩) := by
  have hh := claim_C9_skip_until_recovery.2.2.2 String String
    (Parser.literal "z" false) (Parser.utf8 ";") (ParsingState.ofString "ab")
    .EXPECTED_LITERAL "Expected literal: z" ⟨0, 1, 1, 1, 1, 2⟩
    (ParsingState.ofString "ab") 3 (by decide) (by decide) (by decide) (by decide)
  exact hh

end Monadics
